import Mathlib

/-!
The file `lib/utils/copy-file.js` of cpx.

A shallow embedding of `copyFileContent` and `copyFile` together with a model
of the filesystem calls they issue (`fs.stat`, `fs.readFileSync`,
`fs.existsSync`, `fs.writeFile`, `fs.ensureDir`, `fs.chmod`, `fs.chown`,
`fs.utimes` of the `fs-extra` package, and `path.dirname`).

The filesystem is a map from normalised absolute paths to entries. Every call
is appended to a trace, so that "no write was performed" is a statement about
the trace. A call either fails with a fault of the host (permissions, I/O
errors, a full disk) or has its ordinary POSIX outcome on the map: creating an
entry moves the modification time of its directory, a read moves the access
time of the file, a write that fails may leave the file truncated, and which
of the set-user-ID, set-group-ID and sticky bits survive a `chmod` or a `chown`
is the host's choice.
-/

namespace Cpx

/-! ## Data model -/

/-- A normalised absolute path, as its list of components; the root is `[]`. -/
abbrev Path := List String

/-- The content of a buffer or a file. -/
abbrev Bytes := List (Fin 256)

/-- An error object thrown by a filesystem call; `code` is its `code` property. -/
structure FsError where
  code : String
  syscall : String
deriving DecidableEq, Repr

/-- The object returned by `fs.stat`: `isDirectory()`, the permission bits of
`mode`, `uid`, `gid`, and `atime`, `mtime` as `getTime()` milliseconds. -/
structure Stats where
  isDirectory : Bool
  mode : Nat
  uid : Nat
  gid : Nat
  atime : Int
  mtime : Int
deriving DecidableEq, Repr

/-- An entry of the filesystem: a regular file with its bytes (`data = some _`)
or a directory (`data = none`), and its attributes. -/
structure Entry where
  data : Option Bytes
  mode : Nat
  uid : Nat
  gid : Nat
  atime : Int
  mtime : Int
deriving DecidableEq, Repr

/-- The metadata snapshot of an entry. -/
def Entry.stats (e : Entry) : Stats :=
  { isDirectory := e.data.isNone, mode := e.mode, uid := e.uid, gid := e.gid,
    atime := e.atime, mtime := e.mtime }

/-- The filesystem: which entry, if any, each path names. -/
abbrev FS := Path → Option Entry

/-- The map `fs` with `p` bound to `e`. -/
def FS.set (fs : FS) (p : Path) (e : Entry) : FS :=
  fun q => if q = p then some e else fs q

/-- A call into the filesystem layer, with its arguments. -/
inductive Call where
  | stat (p : Path)
  | readFileSync (p : Path)
  | existsSync (p : Path)
  | writeFile (p : Path) (data : Bytes)
  | ensureDir (p : Path)
  | chmod (p : Path) (mode : Nat)
  | chown (p : Path) (uid gid : Nat)
  | utimes (p : Path) (atime mtime : Int)
deriving DecidableEq, Repr

/-- Whether the call writes file content. -/
def Call.isWrite : Call → Bool
  | .writeFile _ _ => true
  | _ => false

/-- Whether the call reads, tests or writes file content. -/
def Call.touchesContent : Call → Bool
  | .readFileSync _ => true
  | .existsSync _ => true
  | .writeFile _ _ => true
  | _ => false

/-- Whether the call is a metadata read. -/
def Call.isStat : Call → Bool
  | .stat _ => true
  | _ => false

/-- What surrounds one run: the process-wide exclusion pattern
(`excludeReg`, built once from `CPX_EXCLUDE`; `none` when unset) and the host.
The host decides which calls fail and with what error (`fault`); how many bytes
of a write that fails reached the file, `none` when the file was not even
opened (`written`); how many of the ancestors an `ensureDir` that fails had
visited (`visited`); the access time of a file once it was read (`readAtime`:
the old one under `noatime`, the current time under `strictatime`); which of the
set-user-ID, set-group-ID and sticky bits a `chmod` or a `chown` leaves on an
entry (`specialBits`, the three bits above the nine permission bits); and the
attributes of what the process creates (current time, owner, default modes). -/
structure Env where
  excludeReg : Option (Path → Bool)
  fault : Call → Option FsError
  written : Path → Bytes → Option Nat
  visited : Path → Nat
  readAtime : Entry → Int
  specialBits : Call → Entry → Nat
  now : Int
  uid : Nat
  gid : Nat
  fileMode : Nat
  dirMode : Nat

/-- The state threaded through a run: the filesystem and the calls issued so far. -/
structure World where
  fs : FS
  trace : List Call

deriving instance DecidableEq for Except

/-- The outcome of a call or of an `async` function: the value it resolves
with or the error it rejects with, and the world it leaves. -/
abbrev Result (α : Type) := Except FsError α × World

/-! ## The filesystem layer -/

/-- The error of a path that does not exist. -/
def ENOENT (syscall : String) : FsError := { code := "ENOENT", syscall := syscall }

/-- The error of a file operation on a directory. -/
def EISDIR (syscall : String) : FsError := { code := "EISDIR", syscall := syscall }

/-- The error of a path that runs through a regular file. -/
def ENOTDIR (syscall : String) : FsError := { code := "ENOTDIR", syscall := syscall }

/-- The error of creating what exists. -/
def EEXIST (syscall : String) : FsError := { code := "EEXIST", syscall := syscall }

/-- The world after call `c` was issued, before its effect. -/
def World.log (w : World) (c : Call) : World :=
  { w with trace := w.trace ++ [c] }

/-- Node's `path.dirname` on normalised absolute paths: `dirname "/"` is `"/"`. -/
def dirname (p : Path) : Path := p.dropLast

/-- Whether a proper ancestor of `p` is a regular file. -/
def FS.throughFile (fs : FS) (p : Path) : Bool :=
  p.inits.dropLast.any fun q =>
    match fs q with
    | some e => e.data.isSome
    | none => false

/-- The error for a path that names nothing: `ENOTDIR` when it runs through a
regular file, `ENOENT` otherwise. -/
def FS.missing (fs : FS) (p : Path) (syscall : String) : FsError :=
  if fs.throughFile p then ENOTDIR syscall else ENOENT syscall

/-- The map with a new entry `e` at `p`: the directory in which `p` is created
gets the current time as its modification time. -/
def FS.create (fs : FS) (now : Int) (p : Path) (e : Entry) : FS :=
  if p = [] then fs.set p e
  else
    match fs (dirname p) with
    | some d => (fs.set (dirname p) { d with mtime := now }).set p e
    | none => fs.set p e

/-- Model of `fs.stat`. -/
def stat (env : Env) (p : Path) (w : World) : Result Stats :=
  match env.fault (.stat p) with
  | some e => (.error e, w.log (.stat p))
  | none =>
    match w.fs p with
    | none => (.error (w.fs.missing p "stat"), w.log (.stat p))
    | some e => (.ok e.stats, w.log (.stat p))

/-- Model of `fs.readFileSync` without an encoding: the file's bytes; the read
moves the file's access time as the host has it. -/
def readFileSync (env : Env) (p : Path) (w : World) : Result Bytes :=
  match env.fault (.readFileSync p) with
  | some e => (.error e, w.log (.readFileSync p))
  | none =>
    match w.fs p with
    | none => (.error (w.fs.missing p "open"), w.log (.readFileSync p))
    | some e =>
      match e.data with
      | none => (.error (EISDIR "read"), w.log (.readFileSync p))
      | some bytes =>
        (.ok bytes, { fs := w.fs.set p { e with atime := env.readAtime e },
                      trace := w.trace ++ [.readFileSync p] })

/-- Model of `fs.existsSync`: it never throws. -/
def existsSync (p : Path) (w : World) : Bool × World :=
  ((w.fs p).isSome, w.log (.existsSync p))

/-- The ordinary outcome of `fs.writeFile` (flag `w`: create or truncate). The
parent directory must exist; an existing file keeps its attributes but for its
modification time, a new file gets the process defaults. -/
def writeFileFs (env : Env) (p : Path) (data : Bytes) (fs : FS) : Except FsError Unit × FS :=
  match fs p with
  | some e =>
    match e.data with
    | none => (.error (EISDIR "open"), fs)
    | some _ => (.ok (), fs.set p { e with data := some data, mtime := env.now })
  | none =>
    match fs (dirname p) with
    | none => (.error (fs.missing p "open"), fs)
    | some d =>
      match d.data with
      | some _ => (.error (ENOTDIR "open"), fs)
      | none =>
        (.ok (), fs.create env.now p
          { data := some data, mode := env.fileMode, uid := env.uid,
            gid := env.gid, atime := env.now, mtime := env.now })

/-- Model of `fs.writeFile`. A write that the host makes fail after the file
was opened leaves in it the bytes that had reached it: the file is truncated,
or created, and holds a beginning of the data. -/
def writeFile (env : Env) (p : Path) (data : Bytes) (w : World) : Result Unit :=
  match env.fault (.writeFile p data) with
  | some e =>
    match env.written p data with
    | none => (.error e, w.log (.writeFile p data))
    | some n =>
      (.error e, { fs := (writeFileFs env p (data.take n) w.fs).2,
                   trace := w.trace ++ [.writeFile p data] })
  | none =>
    ((writeFileFs env p data w.fs).1,
      { fs := (writeFileFs env p data w.fs).2, trace := w.trace ++ [.writeFile p data] })

/-- The entry of a directory the process creates. -/
def Env.newDir (env : Env) : Entry :=
  { data := none, mode := env.dirMode, uid := env.uid, gid := env.gid,
    atime := env.now, mtime := env.now }

/-- Walks the given paths (a directory and its ancestors, outermost first),
creating each one that is missing; a regular file in the way is an error. -/
def mkdirs (env : Env) : List Path → FS → Except FsError Unit × FS
  | [], fs => (.ok (), fs)
  | q :: qs, fs =>
    match fs q with
    | none => mkdirs env qs (fs.create env.now q env.newDir)
    | some e =>
      match e.data with
      | none => mkdirs env qs fs
      | some _ => (.error (if qs = [] then EEXIST "mkdir" else ENOTDIR "mkdir"), fs)

/-- Model of fs-extra's `ensureDir`: the directory and its missing ancestors
are created. An `ensureDir` that the host makes fail leaves the ancestors it
had visited. -/
def ensureDir (env : Env) (p : Path) (w : World) : Result Unit :=
  match env.fault (.ensureDir p) with
  | some e =>
    (.error e, { fs := (mkdirs env (p.inits.take (env.visited p)) w.fs).2,
                 trace := w.trace ++ [.ensureDir p] })
  | none =>
    ((mkdirs env p.inits w.fs).1,
      { fs := (mkdirs env p.inits w.fs).2, trace := w.trace ++ [.ensureDir p] })

/-- Model of `fs.chmod`: the nine permission bits are set as asked; the
set-user-ID, set-group-ID and sticky bits are those the host leaves. -/
def chmod (env : Env) (p : Path) (mode : Nat) (w : World) : Result Unit :=
  match env.fault (.chmod p mode) with
  | some e => (.error e, w.log (.chmod p mode))
  | none =>
    match w.fs p with
    | none => (.error (w.fs.missing p "chmod"), w.log (.chmod p mode))
    | some e =>
      (.ok (), { fs := w.fs.set p
                   { e with mode := 512 * env.specialBits (.chmod p mode) e + mode % 512 },
                 trace := w.trace ++ [.chmod p mode] })

/-- Model of `fs.chown`: owner and group are set; the permission bits stay, the
set-user-ID, set-group-ID and sticky bits are those the host leaves (Linux
clears set-user-ID and set-group-ID of a regular file). -/
def chown (env : Env) (p : Path) (uid gid : Nat) (w : World) : Result Unit :=
  match env.fault (.chown p uid gid) with
  | some e => (.error e, w.log (.chown p uid gid))
  | none =>
    match w.fs p with
    | none => (.error (w.fs.missing p "chown"), w.log (.chown p uid gid))
    | some e =>
      (.ok (), { fs := w.fs.set p
                   { e with uid := uid, gid := gid,
                            mode := 512 * env.specialBits (.chown p uid gid) e + e.mode % 512 },
                 trace := w.trace ++ [.chown p uid gid] })

/-- Model of `fs.utimes`. -/
def utimes (env : Env) (p : Path) (atime mtime : Int) (w : World) : Result Unit :=
  match env.fault (.utimes p atime mtime) with
  | some e => (.error e, w.log (.utimes p atime mtime))
  | none =>
    match w.fs p with
    | none => (.error (w.fs.missing p "utime"), w.log (.utimes p atime mtime))
    | some e =>
      (.ok (), { fs := w.fs.set p { e with atime := atime, mtime := mtime },
                 trace := w.trace ++ [.utimes p atime mtime] })

/-- Node's `Buffer.compare`: -1, 0 or 1 by the lexicographic order of the bytes. -/
def Buffer.compare : Bytes → Bytes → Int
  | [], [] => 0
  | [], _ :: _ => -1
  | _ :: _, [] => 1
  | a :: as, b :: bs =>
    if a < b then -1 else if b < a then 1 else Buffer.compare as bs

/-! ## `copy-file.js` -/

/-- The options object of `copyFile`. -/
structure Options where
  transform : List (Bytes → Bytes)
  preserve : Bool
  update : Bool

/-- The test `excludeReg && excludeReg.test(source)`. -/
def excluded (env : Env) (source : Path) : Bool :=
  match env.excludeReg with
  | none => false
  | some reg => reg source

/-- The function `copyFileContent(source, output, transforms)`. -/
def copyFileContent (env : Env) (source output : Path) (transforms : List (Bytes → Bytes))
    (w : World) : Result Unit :=
  if excluded env source then
    (.ok (), w)
  else
    -- Skip change if content is equal
    match readFileSync env source w with
    | (.error e, w1) => (.error e, w1)
    | (.ok sourceContent, w1) =>
      match existsSync output w1 with
      | (true, w2) =>
        match readFileSync env output w2 with
        | (.error e, w3) => (.error e, w3)
        | (.ok outputContent, w3) =>
          if Buffer.compare sourceContent outputContent = 0 then
            (.ok (), w3)
          else
            writeFile env output (transforms.foldl (fun content t => t content) sourceContent) w3
      | (false, w2) =>
        writeFile env output (transforms.foldl (fun content t => t content) sourceContent) w2

/-- Lines 76 to 87 of `copyFile`: what follows the `update` check. -/
def copyFileFrom (env : Env) (source output : Path) (options : Options) (stat : Stats)
    (w : World) : Result Unit :=
  let copied : Result Unit :=
    if stat.isDirectory then
      ensureDir env output w
    else
      match ensureDir env (dirname output) w with
      | (.error e, w1) => (.error e, w1)
      | (.ok _, w1) => copyFileContent env source output options.transform w1
  match copied with
  | (.error e, w2) => (.error e, w2)
  | (.ok _, w2) =>
    match chmod env output stat.mode w2 with
    | (.error e, w3) => (.error e, w3)
    | (.ok _, w3) =>
      if options.preserve then
        match chown env output stat.uid stat.gid w3 with
        | (.error e, w4) => (.error e, w4)
        | (.ok _, w4) => utimes env output stat.atime stat.mtime w4
      else
        (.ok (), w3)

/-- The function `copyFile(source, output, options)`. -/
def copyFile (env : Env) (source output : Path) (options : Options) (w : World) : Result Unit :=
  match stat env source w with
  | (.error e, w1) => (.error e, w1)
  | (.ok stat, w1) =>
    if options.update then
      match Cpx.stat env output w1 with
      | (.ok dstStat, w2) =>
        if dstStat.mtime > stat.mtime then
          -- Don't overwrite because the file on destination is newer than
          -- the source file.
          (.ok (), w2)
        else
          copyFileFrom env source output options stat w2
      | (.error dstStatError, w2) =>
        if dstStatError.code ≠ "ENOENT" then
          (.error dstStatError, w2)
        else
          copyFileFrom env source output options stat w2
    else
      copyFileFrom env source output options stat w1

/-! ## What is observed of a run -/

/-- The bytes of the regular file at `p`: `none` when `p` is missing or a directory. -/
def FS.content (fs : FS) (p : Path) : Option Bytes := (fs p).bind Entry.data

/-- Whether `p` names a directory. -/
def FS.isDir (fs : FS) (p : Path) : Bool :=
  match fs p with
  | some e => e.data.isNone
  | none => false

/-- The world in which a run starts: no call issued yet. -/
def World.init (fs : FS) : World := { fs := fs, trace := [] }

/-- No call of the trace writes file content. -/
def World.NoWrite (w : World) : Prop := ∀ c ∈ w.trace, c.isWrite = false

/-- A step that changes no file's bytes and issues no write. -/
def Pres (w w' : World) : Prop :=
  (∀ p, w'.fs.content p = w.fs.content p) ∧ (w.NoWrite → w'.NoWrite)

/-- The calls of `t'` that come after those of `t` satisfy `P`. -/
def Appends (P : Call → Prop) (t t' : List Call) : Prop :=
  ∃ cs, t' = t ++ cs ∧ ∀ c ∈ cs, P c

/-- The world `w` with the calls `t` put before its trace. -/
def World.shift (t : List Call) (w : World) : World :=
  { fs := w.fs, trace := t ++ w.trace }

/-- The outcome `r` with the calls `t` put before its trace. -/
def Result.shift {α : Type} (t : List Call) (r : Result α) : Result α :=
  (r.1, r.2.shift t)

/-- The pipeline `transforms.reduce((content, t) => t(content), sourceContent)`. -/
def applyTransforms (transforms : List (Bytes → Bytes)) (sourceContent : Bytes) : Bytes :=
  transforms.foldl (fun content t => t content) sourceContent

/-- The entry `e` of the destination after the `chmod` of line 82. -/
def chmodded (env : Env) (output : Path) (st : Stats) (e : Entry) : Entry :=
  { e with mode := 512 * env.specialBits (.chmod output st.mode) e + st.mode % 512 }

/-- The entry `e` of the destination after lines 82 to 87 have succeeded. -/
def withAttributes (env : Env) (output : Path) (options : Options) (st : Stats)
    (e : Entry) : Entry :=
  if options.preserve then
    { chmodded env output st e with
      uid := st.uid, gid := st.gid,
      mode := 512 * env.specialBits (.chown output st.uid st.gid) (chmodded env output st e) +
        (chmodded env output st e).mode % 512,
      atime := st.atime, mtime := st.mtime }
  else
    chmodded env output st e

/-- The update rule fires: the option is set and the destination is strictly
newer than the source. -/
def UpdateSkip (options : Options) (fs : FS) (source output : Path) : Prop :=
  options.update = true ∧
    ∃ se de, fs source = some se ∧ fs output = some de ∧ de.mtime > se.mtime

/-- The run rejects with `e` having issued nothing but metadata reads. -/
def FailsReadingMetadata (r : Result Unit) (e : FsError) : Prop :=
  r.1 = .error e ∧ ∀ c ∈ r.2.trace, c.isStat = true

/-- The attribute stage (lines 82 to 87) run from `w2` ends in `(r, w')`. -/
def AttrStage (env : Env) (output : Path) (options : Options) (st : Stats)
    (w2 : World) (r : Except FsError Unit) (w' : World) : Prop :=
  ∃ r3 w3, chmod env output st.mode w2 = (r3, w3) ∧
    ((∃ e, r3 = .error e ∧ r = .error e ∧ w' = w3) ∨
     (r3 = .ok () ∧ options.preserve = false ∧ r = .ok () ∧ w' = w3) ∨
     (r3 = .ok () ∧ options.preserve = true ∧
        ∃ r4 w4, chown env output st.uid st.gid w3 = (r4, w4) ∧
          ((∃ e, r4 = .error e ∧ r = .error e ∧ w' = w4) ∨
           (r4 = .ok () ∧ utimes env output st.atime st.mtime w4 = (r, w')))))

/-- The copy stage (lines 76 to 81) run from `w` ends in `(r2, w2)`. -/
def CopyStage (env : Env) (source output : Path) (options : Options) (st : Stats)
    (w : World) (r2 : Except FsError Unit) (w2 : World) : Prop :=
  (st.isDirectory = true ∧ ensureDir env output w = (r2, w2)) ∨
  (st.isDirectory = false ∧
    ∃ r1 w1, ensureDir env (dirname output) w = (r1, w1) ∧
      ((∃ e, r1 = .error e ∧ r2 = .error e ∧ w2 = w1) ∨
       (r1 = .ok () ∧ copyFileContent env source output options.transform w1 = (r2, w2))))

/-- The ways a run of `copyFile` from `w` can end in `(r, w')`: the source's
metadata cannot be read; the update rule skips the copy; the destination's
metadata cannot be read; or `copyFileFrom` runs. -/
def Run (env : Env) (source output : Path) (options : Options)
    (w : World) (r : Except FsError Unit) (w' : World) : Prop :=
  (∃ e, stat env source w = (.error e, w.log (.stat source)) ∧
    r = .error e ∧ w' = w.log (.stat source)) ∨
  ∃ st, stat env source w = (.ok st, w.log (.stat source)) ∧
    ((options.update = false ∧
        copyFileFrom env source output options st (w.log (.stat source)) = (r, w')) ∨
     (options.update = true ∧
        ((∃ dst, stat env output (w.log (.stat source)) =
              (.ok dst, (w.log (.stat source)).log (.stat output)) ∧
            dst.mtime > st.mtime ∧ r = .ok () ∧
            w' = (w.log (.stat source)).log (.stat output)) ∨
         (∃ dst, stat env output (w.log (.stat source)) =
              (.ok dst, (w.log (.stat source)).log (.stat output)) ∧
            ¬ dst.mtime > st.mtime ∧
            copyFileFrom env source output options st
              ((w.log (.stat source)).log (.stat output)) = (r, w')) ∨
         (∃ e, stat env output (w.log (.stat source)) =
              (.error e, (w.log (.stat source)).log (.stat output)) ∧
            e.code ≠ "ENOENT" ∧ r = .error e ∧
            w' = (w.log (.stat source)).log (.stat output)) ∨
         (∃ e, stat env output (w.log (.stat source)) =
              (.error e, (w.log (.stat source)).log (.stat output)) ∧
            e.code = "ENOENT" ∧
            copyFileFrom env source output options st
              ((w.log (.stat source)).log (.stat output)) = (r, w')))))

/-- No file's bytes changed between `w` and `w'`, no write was issued, and if
the run resolved then the source is excluded, or the destination already held
the source bytes, or the update rule fired. -/
def Untouched (env : Env) (source output : Path) (options : Options) (c : Bytes)
    (w : World) (r : Except FsError Unit) (w' : World) : Prop :=
  (∀ p, w'.fs.content p = w.fs.content p) ∧ (w.NoWrite → w'.NoWrite) ∧
    (r = .ok () → excluded env source = true ∨ w.fs.content output = some c ∨
      (UpdateSkip options w.fs source output ∧ w'.fs = w.fs))

/-- The write of `copyFileContent` was issued: the source is not excluded, the
destination did not hold the source bytes, no other file's bytes changed, and
the destination holds the transformed bytes when the run resolved. -/
def Rewritten (env : Env) (source output : Path) (options : Options) (c : Bytes)
    (w : World) (r : Except FsError Unit) (w' : World) : Prop :=
  excluded env source = false ∧ w.fs.content output ≠ some c ∧
    (∀ p, p ≠ output → w'.fs.content p = w.fs.content p) ∧
    (r = .ok () → w'.fs.content output = some (applyTransforms options.transform c))

/-! ## Concrete worlds -/

/-- The special bits a Linux host leaves: a `chmod` sets them as asked; a
`chown` of a regular file clears set-user-ID, clears set-group-ID when the file
is group-executable, and keeps the sticky bit; a `chown` of a directory keeps
them all. -/
def linuxSpecialBits : Call → Entry → Nat
  | .chmod _ mode, _ => mode / 512 % 8
  | .chown _ _ _, e =>
    if e.data.isSome then
      e.mode / 512 % 2 + 2 * (if e.mode / 8 % 2 = 1 then 0 else e.mode / 1024 % 2)
    else e.mode / 512 % 8
  | _, e => e.mode / 512 % 8

/-- A Linux host that makes no call fail, mounted `relatime`; files are created
with mode 0o644 and directories with mode 0o755, owned by 1000:1000, at time
5000. -/
def plainEnv : Env :=
  { excludeReg := none, fault := fun _ => none,
    written := fun _ _ => none, visited := fun _ => 0,
    readAtime := fun e => if e.atime ≤ e.mtime then 5000 else e.atime,
    specialBits := linuxSpecialBits,
    now := 5000, uid := 1000, gid := 1000, fileMode := 420, dirMode := 493 }

/-- The host of `plainEnv` at a later time. -/
def laterEnv : Env := { plainEnv with now := 9000 }

/-- The host of `plainEnv` with `CPX_EXCLUDE` set to a pattern that matches `/a.txt`. -/
def excludingEnv : Env :=
  { plainEnv with excludeReg := some (fun p => decide (p = ["a.txt"])) }

/-- The host of `plainEnv` with an exclusion pattern that matches every path. -/
def excludeAllEnv : Env :=
  { plainEnv with excludeReg := some (fun _ => true) }

/-- A root directory. -/
def rootDir : Entry :=
  { data := none, mode := 493, uid := 0, gid := 0, atime := 1000, mtime := 1000 }

/-- The bytes of "hello". -/
def hello : Bytes := [104, 101, 108, 108, 111]

/-- The file `a.txt` of the example scenario. -/
def aTxt : Entry :=
  { data := some hello, mode := 384, uid := 1000, gid := 1000, atime := 2000, mtime := 3000 }

/-- The file `b.txt`, newer than `a.txt` and with another mode and owner. -/
def bTxt : Entry :=
  { data := some [119, 111, 114, 108, 100], mode := 420, uid := 0, gid := 0,
    atime := 4000, mtime := 4000 }

/-- The directory `/src`. -/
def srcDir : Entry :=
  { data := none, mode := 448, uid := 1000, gid := 1000, atime := 2000, mtime := 3000 }

/-- A filesystem holding `/a.txt` with content "hello" and nothing else. -/
def helloFs : FS := fun p =>
  if p = [] then some rootDir else if p = ["a.txt"] then some aTxt else none

/-- The world of the example scenario before any call. -/
def helloWorld : World := { fs := helloFs, trace := [] }

/-- A filesystem holding `/a.txt` and a newer `/b.txt`. -/
def newerFs : FS := fun p =>
  if p = [] then some rootDir
  else if p = ["a.txt"] then some aTxt
  else if p = ["b.txt"] then some bTxt
  else none

/-- A filesystem in which `/a.txt` and `/b.txt` both hold "hello". -/
def sameFs : FS := fun p =>
  if p = [] then some rootDir
  else if p = ["a.txt"] then some aTxt
  else if p = ["b.txt"] then some { bTxt with data := some hello, mtime := 1000 }
  else none

/-- A filesystem holding the directory `/src` and the file `/a.txt`. -/
def dirFs : FS := fun p =>
  if p = [] then some rootDir
  else if p = ["src"] then some srcDir
  else if p = ["a.txt"] then some aTxt
  else none

/-- The set-user-ID file `/tool`, mode 0o4755. -/
def toolFile : Entry :=
  { data := some hello, mode := 2541, uid := 0, gid := 0, atime := 2000, mtime := 3000 }

/-- A filesystem holding the set-user-ID file `/tool`. -/
def setuidFs : FS := fun p =>
  if p = [] then some rootDir else if p = ["tool"] then some toolFile else none

/-- A destination two directories below the root, none of which exists in `helloFs`. -/
def deepOutput : Path := ["out", "deep", "b.txt"]

/-- The options with no transform and both flags unset. -/
def noOptions : Options := { transform := [], preserve := false, update := false }

/-- The transform that puts an exclamation mark after the bytes. -/
def exclaim : Bytes → Bytes := fun b => b ++ [33]

/-- The transform that doubles the bytes. -/
def double : Bytes → Bytes := fun b => b ++ b

/-! ## Lemmas on the filesystem layer and on the stages of a run -/

theorem Pres.same (w : World) : Pres w w := ⟨fun _ => rfl, id⟩

theorem Pres.comp {a b c : World} (h1 : Pres a b) (h2 : Pres b c) : Pres a c :=
  ⟨fun p => (h2.1 p).trans (h1.1 p), fun h => h2.2 (h1.2 h)⟩

theorem NoWrite_log {w : World} {c : Call} (hc : c.isWrite = false) (h : w.NoWrite) :
    (w.log c).NoWrite := by
  intro d hd
  simp only [World.log, List.mem_append, List.mem_singleton] at hd
  rcases hd with hd | hd
  · exact h d hd
  · exact hd ▸ hc

theorem Pres_log (w : World) (c : Call) (hc : c.isWrite = false) : Pres w (w.log c) :=
  ⟨fun _ => rfl, NoWrite_log hc⟩

theorem content_set (fs : FS) (p q : Path) (e : Entry) :
    (fs.set p e).content q = if q = p then e.data else fs.content q := by
  unfold FS.content FS.set
  split <;> simp

theorem Buffer.compare_eq_zero (a b : Bytes) : Buffer.compare a b = 0 ↔ a = b := by
  induction a generalizing b with
  | nil => cases b <;> simp [Buffer.compare]
  | cons x xs ih =>
    cases b with
    | nil => simp [Buffer.compare]
    | cons y ys =>
      simp only [Buffer.compare, List.cons.injEq]
      by_cases h1 : x < y
      · simp [h1, ne_of_lt h1]
      · by_cases h2 : y < x
        · simp [h1, h2, (ne_of_lt h2).symm]
        · have : x = y := le_antisymm (not_lt.mp h2) (not_lt.mp h1)
          simp [h1, h2, this, ih]

theorem stat_world (env : Env) (p : Path) (w : World) :
    (stat env p w).2 = w.log (.stat p) := by
  unfold stat; split
  · rfl
  · split <;> rfl

theorem stat_ok {env : Env} {p : Path} {w : World} {st : Stats}
    (h : (stat env p w).1 = .ok st) :
    env.fault (.stat p) = none ∧ ∃ e, w.fs p = some e ∧ st = e.stats := by
  unfold stat at h
  split at h
  · simp at h
  · rename_i hf
    split at h
    · simp at h
    · rename_i e he
      simp only [Except.ok.injEq] at h
      exact ⟨hf, e, he, h.symm⟩

theorem stat_error {env : Env} {p : Path} {w : World} {e : FsError}
    (h : (stat env p w).1 = .error e) : env.fault (.stat p) = some e ∨ w.fs p = none := by
  unfold stat at h
  cases hf : env.fault (.stat p) with
  | some x =>
    simp only [hf, Except.error.injEq] at h
    exact Or.inl (by rw [h])
  | none =>
    cases hp : w.fs p with
    | none => exact Or.inr rfl
    | some x => simp [hf, hp] at h

theorem content_create (fs : FS) (now : Int) (p q : Path) (e : Entry) :
    (fs.create now p e).content q = if q = p then e.data else fs.content q := by
  unfold FS.create
  split
  · exact content_set fs p q e
  · rename_i hp
    cases hd : fs (dirname p) with
    | none => exact content_set fs p q e
    | some d =>
      simp only
      rw [content_set]
      split
      · rfl
      · rw [content_set]
        split
        · rename_i hq; rw [hq]; simp [FS.content, hd]
        · rfl

theorem readFileSync_trace (env : Env) (p : Path) (w : World) :
    (readFileSync env p w).2.trace = w.trace ++ [.readFileSync p] := by
  unfold readFileSync; split
  · rfl
  · split
    · rfl
    · split <;> rfl

theorem readFileSync_ok {env : Env} {p : Path} {w : World} {b : Bytes}
    (h : (readFileSync env p w).1 = .ok b) : w.fs.content p = some b := by
  unfold readFileSync at h
  split at h
  · simp at h
  · split at h
    · simp at h
    · rename_i e he
      split at h
      · simp at h
      · rename_i bytes hb
        simp only [Except.ok.injEq] at h
        simp [FS.content, he, hb, h]

theorem readFileSync_content (env : Env) (p : Path) (w : World) (q : Path) :
    (readFileSync env p w).2.fs.content q = w.fs.content q := by
  unfold readFileSync
  cases env.fault (.readFileSync p) with
  | some e => rfl
  | none =>
    cases hp : w.fs p with
    | none => rfl
    | some e =>
      cases hd : e.data with
      | none => simp only [hd]; rfl
      | some bytes =>
        simp only [hd]
        rw [content_set]
        split
        · rename_i hq; rw [hq]; simp [FS.content, hp, hd]
        · rfl

theorem readFileSync_Pres (env : Env) (p : Path) (w : World) :
    Pres w (readFileSync env p w).2 := by
  refine ⟨readFileSync_content env p w, fun h c hc => ?_⟩
  rw [readFileSync_trace, List.mem_append, List.mem_singleton] at hc
  rcases hc with hc | hc
  · exact h c hc
  · rw [hc]; rfl

theorem existsSync_world (p : Path) (w : World) :
    (existsSync p w).2 = w.log (.existsSync p) := rfl

theorem writeFile_trace (env : Env) (p : Path) (d : Bytes) (w : World) :
    (writeFile env p d w).2.trace = w.trace ++ [.writeFile p d] := by
  unfold writeFile; split
  · split <;> rfl
  · rfl

theorem writeFileFs_other (env : Env) (p : Path) (d : Bytes) (fs : FS) (q : Path)
    (hq : q ≠ p) : (writeFileFs env p d fs).2.content q = fs.content q := by
  unfold writeFileFs
  cases h1 : fs p with
  | some x =>
    cases h2 : x.data with
    | none => simp only [h2]
    | some b => simp only [h2]; rw [content_set, if_neg hq]
  | none =>
    cases h3 : fs (dirname p) with
    | none => rfl
    | some y =>
      cases h4 : y.data with
      | some b => simp only [h4]
      | none => simp only [h4]; rw [content_create, if_neg hq]

theorem writeFileFs_ok {env : Env} {p : Path} {d : Bytes} {fs : FS}
    (h : (writeFileFs env p d fs).1 = .ok ()) :
    (writeFileFs env p d fs).2.content p = some d := by
  unfold writeFileFs at h ⊢
  cases h1 : fs p with
  | some x =>
    cases h2 : x.data with
    | none => simp [h1, h2] at h
    | some b => simp only [h2]; rw [content_set, if_pos rfl]
  | none =>
    cases h3 : fs (dirname p) with
    | none => simp [h1, h3] at h
    | some y =>
      cases h4 : y.data with
      | some b => simp [h1, h3, h4] at h
      | none => simp only [h4]; rw [content_create, if_pos rfl]

theorem writeFile_other (env : Env) (p : Path) (d : Bytes) (w : World) (q : Path)
    (hq : q ≠ p) : (writeFile env p d w).2.fs.content q = w.fs.content q := by
  unfold writeFile
  cases env.fault (.writeFile p d) with
  | some e =>
    cases env.written p d with
    | none => rfl
    | some n => exact writeFileFs_other env p _ w.fs q hq
  | none => exact writeFileFs_other env p d w.fs q hq

theorem writeFile_ok {env : Env} {p : Path} {d : Bytes} {w : World}
    (h : (writeFile env p d w).1 = .ok ()) : (writeFile env p d w).2.fs.content p = some d := by
  unfold writeFile at h ⊢
  cases hf : env.fault (.writeFile p d) with
  | some e =>
    rw [hf] at h
    cases hw : env.written p d <;> simp [hw] at h
  | none =>
    simp only [hf] at h
    exact writeFileFs_ok h

theorem create_same (fs : FS) (now : Int) (q : Path) (x : Entry) :
    (fs.create now q x) q = some x := by
  unfold FS.create
  split
  · simp [FS.set]
  · cases hd : fs (dirname q) <;> simp [FS.set]

theorem create_old (fs : FS) (now : Int) (q : Path) (x : Entry) (p : Path) (e : Entry)
    (hq : fs q = none) (h : fs p = some e) :
    (fs.create now q x) p = some e ∨
      (q ≠ [] ∧ p = dirname q ∧ (fs.create now q x) p = some { e with mtime := now }) := by
  have hpq : p ≠ q := fun hpq => by rw [hpq, hq] at h; cases h
  unfold FS.create
  split
  · left; simp [FS.set, hpq, h]
  · rename_i hne
    cases hd : fs (dirname q) with
    | none => left; simp [FS.set, hpq, h]
    | some d =>
      simp only
      by_cases hpd : p = dirname q
      · right
        subst hpd
        rw [h] at hd
        cases hd
        exact ⟨hne, rfl, by simp [FS.set, hpq]⟩
      · left; simp [FS.set, hpq, hpd, h]

theorem create_new (fs : FS) (now : Int) (q : Path) (x : Entry) (p : Path)
    (h : fs p = none) :
    (fs.create now q x) p = none ∨ (p = q ∧ (fs.create now q x) p = some x) := by
  unfold FS.create
  by_cases hpq : p = q
  · right
    refine ⟨hpq, ?_⟩
    split
    · simp [FS.set, hpq]
    · cases hd : fs (dirname q) <;> simp [FS.set, hpq]
  · left
    split
    · simp [FS.set, hpq, h]
    · cases hd : fs (dirname q) with
      | none => simp [FS.set, hpq, h]
      | some d =>
        simp only
        have hpd : p ≠ dirname q := fun hpd => by rw [hpd, hd] at h; cases h
        simp [FS.set, hpq, hpd, h]

/-- Entries that exist before `mkdirs` exist after it, as they were or with the
current time as their modification time when a directory was created in them. -/
theorem mkdirs_old (env : Env) (qs : List Path) (fs : FS) (p : Path) (e : Entry)
    (h : fs p = some e) :
    (mkdirs env qs fs).2 p = some e ∨
      ((∃ q ∈ qs, q ≠ [] ∧ p = dirname q) ∧
        (mkdirs env qs fs).2 p = some { e with mtime := env.now }) := by
  induction qs generalizing fs e with
  | nil => left; simpa [mkdirs] using h
  | cons q qs ih =>
    unfold mkdirs
    cases hq : fs q with
    | none =>
      simp only
      rcases create_old fs env.now q env.newDir p e hq h with h1 | ⟨hne, hpd, h1⟩
      · rcases ih _ e h1 with h2 | ⟨⟨x, hx, hx'⟩, h2⟩
        · exact Or.inl h2
        · exact Or.inr ⟨⟨x, List.mem_cons_of_mem _ hx, hx'⟩, h2⟩
      · right
        refine ⟨⟨q, List.mem_cons_self _ _, hne, hpd⟩, ?_⟩
        rcases ih _ _ h1 with h2 | ⟨-, h2⟩
        · exact h2
        · exact h2
    | some x =>
      cases hd : x.data with
      | none =>
        simp only [hd]
        rcases ih fs e h with h2 | ⟨⟨y, hy, hy'⟩, h2⟩
        · exact Or.inl h2
        · exact Or.inr ⟨⟨y, List.mem_cons_of_mem _ hy, hy'⟩, h2⟩
      | some b => simp only [hd]; exact Or.inl h

theorem mkdirs_new (env : Env) (qs : List Path) (fs : FS) (p : Path)
    (h : fs p = none) :
    (mkdirs env qs fs).2 p = none ∨ (p ∈ qs ∧ (mkdirs env qs fs).2 p = some env.newDir) := by
  induction qs generalizing fs with
  | nil => left; simpa [mkdirs] using h
  | cons q qs ih =>
    unfold mkdirs
    cases hq : fs q with
    | none =>
      simp only
      rcases create_new fs env.now q env.newDir p h with h1 | ⟨hpq, h1⟩
      · rcases ih _ h1 with h2 | ⟨h2, h3⟩
        · exact Or.inl h2
        · exact Or.inr ⟨List.mem_cons_of_mem _ h2, h3⟩
      · right
        refine ⟨by rw [hpq]; exact List.mem_cons_self _ _, ?_⟩
        rcases mkdirs_old env qs _ p _ h1 with h2 | ⟨-, h2⟩
        · exact h2
        · exact h2
    | some x =>
      cases hd : x.data with
      | none =>
        simp only [hd]
        rcases ih fs h with h2 | ⟨h2, h3⟩
        · exact Or.inl h2
        · exact Or.inr ⟨List.mem_cons_of_mem _ h2, h3⟩
      | some b => simp only [hd]; exact Or.inl h

theorem mkdirs_isDir (env : Env) (qs : List Path) (fs : FS) (p : Path)
    (h : fs.isDir p = true) : (mkdirs env qs fs).2.isDir p = true := by
  unfold FS.isDir at h
  cases hp : fs p with
  | none => simp [hp] at h
  | some e =>
    rw [hp] at h
    rcases mkdirs_old env qs fs p e hp with h1 | ⟨-, h1⟩
    · simp only [FS.isDir, h1]; exact h
    · simp only [FS.isDir, h1]; exact h

theorem mkdirs_ok (env : Env) (qs : List Path) (fs : FS)
    (h : (mkdirs env qs fs).1 = .ok ()) :
    ∀ q ∈ qs, (mkdirs env qs fs).2.isDir q = true := by
  induction qs generalizing fs with
  | nil => intro q hq; cases hq
  | cons a qs ih =>
    unfold mkdirs at h ⊢
    cases ha : fs a with
    | none =>
      simp only [ha] at h ⊢
      intro q hq
      rcases List.mem_cons.mp hq with rfl | hq
      · apply mkdirs_isDir
        simp only [FS.isDir, create_same]; rfl
      · exact ih _ h q hq
    | some e =>
      cases hd : e.data with
      | none =>
        simp only [ha, hd] at h ⊢
        intro q hq
        rcases List.mem_cons.mp hq with rfl | hq
        · apply mkdirs_isDir
          simp [FS.isDir, ha, hd]
        · exact ih _ h q hq
      | some b => simp [ha, hd] at h

theorem mkdirs_content (env : Env) (qs : List Path) (fs : FS) (p : Path) :
    (mkdirs env qs fs).2.content p = fs.content p := by
  cases h : fs p with
  | some e =>
    rcases mkdirs_old env qs fs p e h with h1 | ⟨-, h1⟩ <;> simp [FS.content, h1, h]
  | none =>
    rcases mkdirs_new env qs fs p h with h1 | ⟨_, h1⟩
    · simp [FS.content, h1, h]
    · simp [FS.content, h1, h, Env.newDir]

theorem ensureDir_trace (env : Env) (p : Path) (w : World) :
    (ensureDir env p w).2.trace = w.trace ++ [.ensureDir p] := by
  unfold ensureDir; split <;> rfl

theorem dirname_mem_inits {p q : Path} (h : q ∈ p.inits) : dirname q ∈ p.inits :=
  (List.mem_inits _ _).mpr ((List.dropLast_prefix q).trans ((List.mem_inits _ _).mp h))

theorem ensureDir_old (env : Env) (p : Path) (w : World) (q : Path) (e : Entry)
    (h : w.fs q = some e) :
    (ensureDir env p w).2.fs q = some e ∨
      (q ∈ p.inits ∧ (ensureDir env p w).2.fs q = some { e with mtime := env.now }) := by
  unfold ensureDir; split
  · rcases mkdirs_old env _ w.fs q e h with h1 | ⟨⟨x, hx, -, hx'⟩, h1⟩
    · exact Or.inl h1
    · exact Or.inr ⟨hx' ▸ dirname_mem_inits (List.mem_of_mem_take hx), h1⟩
  · rcases mkdirs_old env _ w.fs q e h with h1 | ⟨⟨x, hx, -, hx'⟩, h1⟩
    · exact Or.inl h1
    · exact Or.inr ⟨hx' ▸ dirname_mem_inits hx, h1⟩

theorem ensureDir_new (env : Env) (p : Path) (w : World) (q : Path) (h : w.fs q = none) :
    (ensureDir env p w).2.fs q = none ∨
      (q ∈ p.inits ∧ (ensureDir env p w).2.fs q = some env.newDir) := by
  unfold ensureDir; split
  · rcases mkdirs_new env _ w.fs q h with h1 | ⟨hx, h1⟩
    · exact Or.inl h1
    · exact Or.inr ⟨List.mem_of_mem_take hx, h1⟩
  · exact mkdirs_new env _ _ q h

theorem ensureDir_ok {env : Env} {p : Path} {w : World}
    (h : (ensureDir env p w).1 = .ok ()) :
    ∀ q ∈ p.inits, (ensureDir env p w).2.fs.isDir q = true := by
  unfold ensureDir at h ⊢
  split
  · rename_i hf; simp [hf] at h
  · rename_i hf
    simp only [hf] at h
    exact mkdirs_ok env _ _ h

theorem ensureDir_Pres (env : Env) (p : Path) (w : World) : Pres w (ensureDir env p w).2 := by
  constructor
  · intro q
    unfold ensureDir; split
    · exact mkdirs_content env _ _ q
    · exact mkdirs_content env _ _ q
  · intro h c hc
    rw [ensureDir_trace, List.mem_append, List.mem_singleton] at hc
    rcases hc with hc | hc
    · exact h c hc
    · rw [hc]; rfl

theorem chmod_trace (env : Env) (p : Path) (mode : Nat) (w : World) :
    (chmod env p mode w).2.trace = w.trace ++ [.chmod p mode] := by
  unfold chmod; split
  · rfl
  · split <;> rfl

theorem chmod_error {env : Env} {p : Path} {mode : Nat} {w : World} {e : FsError}
    (h : (chmod env p mode w).1 = .error e) : (chmod env p mode w).2.fs = w.fs := by
  unfold chmod at h ⊢
  cases hf : env.fault (.chmod p mode) with
  | some x => rfl
  | none =>
    cases hp : w.fs p with
    | none => rfl
    | some x => simp [hf, hp] at h

theorem chmod_ok {env : Env} {p : Path} {mode : Nat} {w : World}
    (h : (chmod env p mode w).1 = .ok ()) :
    ∃ e, w.fs p = some e ∧ (chmod env p mode w).2.fs = w.fs.set p { e with mode := 512 * env.specialBits (.chmod p mode) e + mode % 512 } := by
  unfold chmod at h ⊢
  cases hf : env.fault (.chmod p mode) with
  | some x => simp [hf] at h
  | none =>
    cases hp : w.fs p with
    | none => simp [hf, hp] at h
    | some x => exact ⟨x, rfl, rfl⟩

theorem chmod_Pres (env : Env) (p : Path) (mode : Nat) (w : World) :
    Pres w (chmod env p mode w).2 := by
  constructor
  · intro q
    cases h : (chmod env p mode w).1 with
    | error e => rw [chmod_error h]
    | ok u =>
      obtain ⟨e, he, hfs⟩ := chmod_ok h
      rw [hfs, content_set]
      split
      · rename_i hq; simp [FS.content, hq, he]
      · rfl
  · intro h c hc
    rw [chmod_trace, List.mem_append, List.mem_singleton] at hc
    rcases hc with hc | hc
    · exact h c hc
    · rw [hc]; rfl

theorem chown_trace (env : Env) (p : Path) (uid gid : Nat) (w : World) :
    (chown env p uid gid w).2.trace = w.trace ++ [.chown p uid gid] := by
  unfold chown; split
  · rfl
  · split <;> rfl

theorem chown_error {env : Env} {p : Path} {uid gid : Nat} {w : World} {e : FsError}
    (h : (chown env p uid gid w).1 = .error e) : (chown env p uid gid w).2.fs = w.fs := by
  unfold chown at h ⊢
  cases hf : env.fault (.chown p uid gid) with
  | some x => rfl
  | none =>
    cases hp : w.fs p with
    | none => rfl
    | some x => simp [hf, hp] at h

theorem chown_ok {env : Env} {p : Path} {uid gid : Nat} {w : World}
    (h : (chown env p uid gid w).1 = .ok ()) :
    ∃ e, w.fs p = some e ∧
      (chown env p uid gid w).2.fs =
        w.fs.set p
          { e with uid := uid, gid := gid,
                   mode := 512 * env.specialBits (.chown p uid gid) e + e.mode % 512 } := by
  unfold chown at h ⊢
  cases hf : env.fault (.chown p uid gid) with
  | some x => simp [hf] at h
  | none =>
    cases hp : w.fs p with
    | none => simp [hf, hp] at h
    | some x => exact ⟨x, rfl, rfl⟩

theorem chown_Pres (env : Env) (p : Path) (uid gid : Nat) (w : World) :
    Pres w (chown env p uid gid w).2 := by
  constructor
  · intro q
    cases h : (chown env p uid gid w).1 with
    | error e => rw [chown_error h]
    | ok u =>
      obtain ⟨e, he, hfs⟩ := chown_ok h
      rw [hfs, content_set]
      split
      · rename_i hq; simp [FS.content, hq, he]
      · rfl
  · intro h c hc
    rw [chown_trace, List.mem_append, List.mem_singleton] at hc
    rcases hc with hc | hc
    · exact h c hc
    · rw [hc]; rfl

theorem utimes_trace (env : Env) (p : Path) (atime mtime : Int) (w : World) :
    (utimes env p atime mtime w).2.trace = w.trace ++ [.utimes p atime mtime] := by
  unfold utimes; split
  · rfl
  · split <;> rfl

theorem utimes_error {env : Env} {p : Path} {atime mtime : Int} {w : World} {e : FsError}
    (h : (utimes env p atime mtime w).1 = .error e) : (utimes env p atime mtime w).2.fs = w.fs := by
  unfold utimes at h ⊢
  cases hf : env.fault (.utimes p atime mtime) with
  | some x => rfl
  | none =>
    cases hp : w.fs p with
    | none => rfl
    | some x => simp [hf, hp] at h

theorem utimes_ok {env : Env} {p : Path} {atime mtime : Int} {w : World}
    (h : (utimes env p atime mtime w).1 = .ok ()) :
    ∃ e, w.fs p = some e ∧ (utimes env p atime mtime w).2.fs = w.fs.set p { e with atime := atime, mtime := mtime } := by
  unfold utimes at h ⊢
  cases hf : env.fault (.utimes p atime mtime) with
  | some x => simp [hf] at h
  | none =>
    cases hp : w.fs p with
    | none => simp [hf, hp] at h
    | some x => exact ⟨x, rfl, rfl⟩

theorem utimes_Pres (env : Env) (p : Path) (atime mtime : Int) (w : World) :
    Pres w (utimes env p atime mtime w).2 := by
  constructor
  · intro q
    cases h : (utimes env p atime mtime w).1 with
    | error e => rw [utimes_error h]
    | ok u =>
      obtain ⟨e, he, hfs⟩ := utimes_ok h
      rw [hfs, content_set]
      split
      · rename_i hq; simp [FS.content, hq, he]
      · rfl
  · intro h c hc
    rw [utimes_trace, List.mem_append, List.mem_singleton] at hc
    rcases hc with hc | hc
    · exact h c hc
    · rw [hc]; rfl

theorem writeFile_NoWrite_of {env : Env} {p : Path} {d : Bytes} {w : World} :
    ¬ (writeFile env p d w).2.NoWrite := by
  intro h
  have := h (.writeFile p d) (by rw [writeFile_trace]; simp)
  simp [Call.isWrite] at this

theorem of_stat {env : Env} {p : Path} {w w1 : World} {r : Except FsError Stats}
    (h : stat env p w = (r, w1)) :
    w1 = w.log (.stat p) ∧
      ∀ st, r = .ok st → env.fault (.stat p) = none ∧ ∃ e, w.fs p = some e ∧ st = e.stats := by
  have h1 := stat_world env p w
  rw [h] at h1
  refine ⟨h1, fun st hst => ?_⟩
  apply stat_ok
  rw [h, hst]

theorem of_stat_error {env : Env} {p : Path} {w w1 : World} {e : FsError}
    (h : stat env p w = (.error e, w1)) : env.fault (.stat p) = some e ∨ w.fs p = none := by
  apply stat_error
  rw [h]

theorem of_readFileSync {env : Env} {p : Path} {w w1 : World} {r : Except FsError Bytes}
    (h : readFileSync env p w = (r, w1)) :
    Pres w w1 ∧ ∀ b, r = .ok b → w.fs.content p = some b := by
  have h1 := readFileSync_Pres env p w
  rw [h] at h1
  refine ⟨h1, fun b hb => ?_⟩
  apply @readFileSync_ok env
  rw [h, hb]

theorem of_writeFile {env : Env} {p : Path} {d : Bytes} {w w1 : World} {r : Except FsError Unit}
    (h : writeFile env p d w = (r, w1)) :
    w1.trace = w.trace ++ [.writeFile p d] ∧
      (∀ q, q ≠ p → w1.fs.content q = w.fs.content q) ∧
      (r = .ok () → w1.fs.content p = some d) := by
  have h1 := writeFile_trace env p d w
  have h2 := writeFile_other env p d w
  rw [h] at h1 h2
  refine ⟨h1, h2, fun hr => ?_⟩
  have := @writeFile_ok env p d w (by rw [h, hr])
  rwa [h] at this

theorem Pres_existsSync (p : Path) (w : World) : Pres w (existsSync p w).2 :=
  Pres_log w _ rfl

/-- Either `copyFileContent` issues no write and leaves every file's bytes as
they are, or the source is not excluded, the destination does not hold the
source bytes, and the transformed bytes are written to the destination. -/
theorem copyFileContent_cases {env : Env} {source output : Path} {ts : List (Bytes → Bytes)}
    {w w' : World} {r : Except FsError Unit} {c : Bytes}
    (hr : copyFileContent env source output ts w = (r, w'))
    (hc : w.fs.content source = some c) :
    (Pres w w' ∧
      (r = .ok () → excluded env source = true ∨ w.fs.content output = some c)) ∨
    (excluded env source = false ∧ w.fs.content output ≠ some c ∧
      (∀ q, q ≠ output → w'.fs.content q = w.fs.content q) ∧
      (r = .ok () → w'.fs.content output = some (applyTransforms ts c))) := by
  unfold copyFileContent at hr
  split at hr
  · cases hr; left; rename_i hx; exact ⟨Pres.same _, fun _ => Or.inl hx⟩
  · rename_i hx
    have hx' : excluded env source = false := by simpa using hx
    split at hr
    · rename_i e w1 h1
      cases hr
      left
      exact ⟨(of_readFileSync h1).1, by simp⟩
    · rename_i b w1 h1
      obtain ⟨p1, hb⟩ := of_readFileSync h1
      have hb := hb b rfl
      rw [hc] at hb
      cases hb
      have hwrite : ∀ w3 : World, Pres w w3 → w.fs.content output ≠ some c →
          writeFile env output (List.foldl (fun content t => t content) c ts) w3 = (r, w') →
          (excluded env source = false ∧ w.fs.content output ≠ some c ∧
            (∀ q, q ≠ output → w'.fs.content q = w.fs.content q) ∧
            (r = .ok () → w'.fs.content output = some (applyTransforms ts c))) := by
        intro w3 p3 hne hw
        obtain ⟨-, hother, hok⟩ := of_writeFile hw
        exact ⟨hx', hne, fun q hq => (hother q hq).trans (p3.1 q), hok⟩
      split at hr
      · rename_i w2 h2
        simp only [existsSync, Prod.mk.injEq] at h2
        obtain ⟨hex, rfl⟩ := h2
        have p2 : Pres w (w1.log (.existsSync output)) := p1.comp (Pres_log _ _ rfl)
        split at hr
        · rename_i e w3 h3
          cases hr
          left
          exact ⟨p2.comp (of_readFileSync h3).1, by simp⟩
        · rename_i oc w3 h3
          obtain ⟨p3, hoc⟩ := of_readFileSync h3
          have hoc : w.fs.content output = some oc := by
            rw [← p2.1 output]; exact hoc oc rfl
          split at hr
          · rename_i heq
            cases hr
            left
            rw [Buffer.compare_eq_zero] at heq
            exact ⟨p2.comp p3, fun _ => Or.inr (heq ▸ hoc)⟩
          · rename_i hne
            right
            rw [Buffer.compare_eq_zero] at hne
            refine hwrite w3 (p2.comp p3) ?_ hr
            rw [hoc]
            intro h
            exact hne (Option.some.inj h).symm
      · rename_i w2 h2
        simp only [existsSync, Prod.mk.injEq] at h2
        obtain ⟨hex, rfl⟩ := h2
        right
        refine hwrite (w1.log (.existsSync output)) (p1.comp (Pres_log _ _ rfl)) ?_ hr
        have h1none : w1.fs output = none := by
          simpa [World.log] using hex
        have : w1.fs.content output = none := by simp [FS.content, h1none]
        rw [← p1.1 output, this]
        simp

theorem of_ensureDir {env : Env} {p : Path} {w w1 : World} {r : Except FsError Unit}
    (h : ensureDir env p w = (r, w1)) :
    Pres w w1 ∧ w1.trace = w.trace ++ [.ensureDir p] ∧
      (∀ q e, w.fs q = some e →
        w1.fs q = some e ∨ (q ∈ p.inits ∧ w1.fs q = some { e with mtime := env.now })) ∧
      (∀ q, w.fs q = none → w1.fs q = none ∨ (q ∈ p.inits ∧ w1.fs q = some env.newDir)) ∧
      (r = .ok () → ∀ q ∈ p.inits, w1.fs.isDir q = true) := by
  have h1 := ensureDir_Pres env p w
  have h2 := ensureDir_trace env p w
  have h3 := ensureDir_old env p w
  have h4 := ensureDir_new env p w
  rw [h] at h1 h2 h3 h4
  refine ⟨h1, h2, h3, h4, fun hr => ?_⟩
  have h5 := @ensureDir_ok env p w (by rw [h, hr])
  rwa [h] at h5

theorem of_chmod {env : Env} {p : Path} {mode : Nat} {w w1 : World} {r : Except FsError Unit}
    (h : chmod env p mode w = (r, w1)) :
    Pres w w1 ∧ w1.trace = w.trace ++ [.chmod p mode] ∧ (∀ e, r = .error e → w1.fs = w.fs) ∧
      (r = .ok () → ∃ e, w.fs p = some e ∧
        w1.fs = w.fs.set p
          { e with mode := 512 * env.specialBits (.chmod p mode) e + mode % 512 }) := by
  have h1 := chmod_Pres env p mode w
  have h2 := chmod_trace env p mode w
  rw [h] at h1 h2
  refine ⟨h1, h2, fun e he => ?_, fun hr => ?_⟩
  · have := @chmod_error env p mode w e (by rw [h, he])
    rwa [h] at this
  · have := @chmod_ok env p mode w (by rw [h, hr])
    rwa [h] at this

theorem of_chown {env : Env} {p : Path} {uid gid : Nat} {w w1 : World}
    {r : Except FsError Unit} (h : chown env p uid gid w = (r, w1)) :
    Pres w w1 ∧ w1.trace = w.trace ++ [.chown p uid gid] ∧ (∀ e, r = .error e → w1.fs = w.fs) ∧
      (r = .ok () → ∃ e, w.fs p = some e ∧
        w1.fs = w.fs.set p
          { e with uid := uid, gid := gid,
                   mode := 512 * env.specialBits (.chown p uid gid) e + e.mode % 512 }) := by
  have h1 := chown_Pres env p uid gid w
  have h2 := chown_trace env p uid gid w
  rw [h] at h1 h2
  refine ⟨h1, h2, fun e he => ?_, fun hr => ?_⟩
  · have := @chown_error env p uid gid w e (by rw [h, he])
    rwa [h] at this
  · have := @chown_ok env p uid gid w (by rw [h, hr])
    rwa [h] at this

theorem of_utimes {env : Env} {p : Path} {atime mtime : Int} {w w1 : World}
    {r : Except FsError Unit} (h : utimes env p atime mtime w = (r, w1)) :
    Pres w w1 ∧ w1.trace = w.trace ++ [.utimes p atime mtime] ∧
      (∀ e, r = .error e → w1.fs = w.fs) ∧
      (r = .ok () → ∃ e, w.fs p = some e ∧
        w1.fs = w.fs.set p { e with atime := atime, mtime := mtime }) := by
  have h1 := utimes_Pres env p atime mtime w
  have h2 := utimes_trace env p atime mtime w
  rw [h] at h1 h2
  refine ⟨h1, h2, fun e he => ?_, fun hr => ?_⟩
  · have := @utimes_error env p atime mtime w e (by rw [h, he])
    rwa [h] at this
  · have := @utimes_ok env p atime mtime w (by rw [h, hr])
    rwa [h] at this

/-- A run of `copyFileFrom` is a copy stage, followed when it succeeds by an
attribute stage. -/
theorem copyFileFrom_stages {env : Env} {source output : Path} {options : Options}
    {st : Stats} {w w' : World} {r : Except FsError Unit}
    (hr : copyFileFrom env source output options st w = (r, w')) :
    ∃ r2 w2, CopyStage env source output options st w r2 w2 ∧
      ((∃ e, r2 = .error e ∧ r = .error e ∧ w' = w2) ∨
       (r2 = .ok () ∧ AttrStage env output options st w2 r w')) := by
  unfold copyFileFrom at hr
  simp only at hr
  split at hr
  · rename_i e w2 hcopied
    cases hr
    refine ⟨.error e, _, ?_, Or.inl ⟨e, rfl, rfl, rfl⟩⟩
    unfold CopyStage
    split at hcopied
    · rename_i hd; exact Or.inl ⟨hd, hcopied⟩
    · rename_i hd
      right
      refine ⟨by simpa using hd, ?_⟩
      split at hcopied
      · rename_i e1 w1 h1
        cases hcopied
        exact ⟨_, _, h1, Or.inl ⟨_, rfl, rfl, rfl⟩⟩
      · rename_i u w1 h1
        exact ⟨_, _, h1, Or.inr ⟨rfl, hcopied⟩⟩
  · rename_i u w2 hcopied
    refine ⟨.ok (), w2, ?_, Or.inr ⟨rfl, ?_⟩⟩
    · unfold CopyStage
      split at hcopied
      · rename_i hd; exact Or.inl ⟨hd, hcopied⟩
      · rename_i hd
        right
        refine ⟨by simpa using hd, ?_⟩
        split at hcopied
        · rename_i e1 w1 h1
          cases hcopied
        · rename_i u w1 h1
          exact ⟨_, _, h1, Or.inr ⟨rfl, hcopied⟩⟩
    · unfold AttrStage
      split at hr
      · rename_i e w3 h3
        cases hr
        exact ⟨_, _, h3, Or.inl ⟨_, rfl, rfl, rfl⟩⟩
      · rename_i u3 w3 h3
        refine ⟨_, _, h3, Or.inr ?_⟩
        split at hr
        · rename_i hp
          right
          refine ⟨rfl, hp, ?_⟩
          split at hr
          · rename_i e w4 h4
            cases hr
            exact ⟨_, _, h4, Or.inl ⟨_, rfl, rfl, rfl⟩⟩
          · rename_i u4 w4 h4
            exact ⟨_, _, h4, Or.inr ⟨rfl, hr⟩⟩
        · rename_i hp
          cases hr
          exact Or.inl ⟨rfl, by simpa using hp, rfl, rfl⟩

theorem copyFile_run {env : Env} {source output : Path} {options : Options}
    {w w' : World} {r : Except FsError Unit}
    (hr : copyFile env source output options w = (r, w')) :
    Run env source output options w r w' := by
  unfold copyFile at hr
  unfold Run
  split at hr
  · rename_i e w1 h1
    obtain ⟨rfl, -⟩ := of_stat h1
    cases hr
    exact Or.inl ⟨e, h1, rfl, rfl⟩
  · rename_i st w1 h1
    obtain ⟨rfl, -⟩ := of_stat h1
    refine Or.inr ⟨st, h1, ?_⟩
    split at hr
    · rename_i hu
      refine Or.inr ⟨hu, ?_⟩
      split at hr
      · rename_i dst w2 h2
        obtain ⟨rfl, -⟩ := of_stat h2
        split at hr
        · rename_i hgt
          cases hr
          exact Or.inl ⟨dst, h2, hgt, rfl, rfl⟩
        · rename_i hgt
          exact Or.inr (Or.inl ⟨dst, h2, hgt, hr⟩)
      · rename_i e w2 h2
        obtain ⟨rfl, -⟩ := of_stat h2
        split at hr
        · rename_i hcode
          cases hr
          exact Or.inr (Or.inr (Or.inl ⟨e, h2, hcode, rfl, rfl⟩))
        · rename_i hcode
          exact Or.inr (Or.inr (Or.inr ⟨e, h2, by simpa using hcode, hr⟩))
    · rename_i hu
      exact Or.inl ⟨by simpa using hu, hr⟩

theorem FS.set_set (fs : FS) (p : Path) (a b : Entry) : (fs.set p a).set p b = fs.set p b := by
  funext q
  unfold FS.set
  split <;> rfl

theorem FS.set_same (fs : FS) (p : Path) (a : Entry) : (fs.set p a) p = some a := by
  simp [FS.set]

theorem FS.set_other (fs : FS) (p q : Path) (a : Entry) (h : q ≠ p) : (fs.set p a) q = fs q := by
  simp [FS.set, h]

theorem FS.set_self (fs : FS) (p : Path) (a : Entry) (h : fs p = some a) : fs.set p a = fs := by
  funext q
  unfold FS.set
  split
  · rename_i hq; rw [hq, h]
  · rfl

theorem attr_ok {env : Env} {output : Path} {options : Options} {st : Stats}
    {w2 w' : World} {r : Except FsError Unit}
    (h : AttrStage env output options st w2 r w') (hr : r = .ok ()) :
    ∃ e, w2.fs output = some e ∧
      w'.fs = w2.fs.set output (withAttributes env output options st e) := by
  obtain ⟨r3, w3, h3, hcase⟩ := h
  obtain ⟨-, -, -, hok3⟩ := of_chmod h3
  rcases hcase with ⟨e, -, he, -⟩ | ⟨h3ok, hp, -, rfl⟩ | ⟨h3ok, hp, r4, w4, h4, hcase⟩
  · rw [hr] at he; cases he
  · obtain ⟨e, he, hfs⟩ := hok3 h3ok
    exact ⟨e, he, by rw [hfs]; simp [withAttributes, chmodded, hp]⟩
  · obtain ⟨e, he, hfs⟩ := hok3 h3ok
    obtain ⟨-, -, -, hok4⟩ := of_chown h4
    rcases hcase with ⟨e4, -, he4, -⟩ | ⟨h4ok, h5⟩
    · rw [hr] at he4; cases he4
    · obtain ⟨e1, he1, hfs4⟩ := hok4 h4ok
      obtain ⟨-, -, -, hok5⟩ := of_utimes h5
      obtain ⟨e2, he2, hfs5⟩ := hok5 hr
      refine ⟨e, he, ?_⟩
      rw [hfs, FS.set_same] at he1
      cases he1
      rw [hfs4, FS.set_same] at he2
      cases he2
      rw [hfs5, hfs4, hfs, FS.set_set, FS.set_set]
      simp [withAttributes, chmodded, hp]

theorem attr_Pres {env : Env} {output : Path} {options : Options} {st : Stats}
    {w2 w' : World} {r : Except FsError Unit}
    (h : AttrStage env output options st w2 r w') : Pres w2 w' := by
  obtain ⟨r3, w3, h3, hcase⟩ := h
  have p3 := (of_chmod h3).1
  rcases hcase with ⟨e, -, -, rfl⟩ | ⟨-, -, -, rfl⟩ | ⟨-, -, r4, w4, h4, hcase⟩
  · exact p3
  · exact p3
  · have p4 := (of_chown h4).1
    rcases hcase with ⟨e4, -, -, rfl⟩ | ⟨-, h5⟩
    · exact p3.comp p4
    · exact (p3.comp p4).comp (of_utimes h5).1

theorem attr_other {env : Env} {output : Path} {options : Options} {st : Stats}
    {w2 w' : World} {r : Except FsError Unit}
    (h : AttrStage env output options st w2 r w') (q : Path) (hq : q ≠ output) :
    w'.fs q = w2.fs q := by
  have step : ∀ {a b : World} {x : Except FsError Unit},
      (∀ e, x = .error e → b.fs = a.fs) →
      (x = .ok () → ∃ e f, a.fs output = some e ∧ b.fs = a.fs.set output f) →
      b.fs q = a.fs q := by
    intro a b x herr hok
    cases x with
    | error e => rw [herr e rfl]
    | ok u =>
      obtain ⟨e, f, -, hfs⟩ := hok rfl
      rw [hfs, FS.set_other _ _ _ _ hq]
  obtain ⟨r3, w3, h3, hcase⟩ := h
  obtain ⟨-, -, e3, o3⟩ := of_chmod h3
  have s3 : w3.fs q = w2.fs q :=
    step e3 (fun hx => by obtain ⟨e, he, hfs⟩ := o3 hx; exact ⟨e, _, he, hfs⟩)
  rcases hcase with ⟨e, -, -, rfl⟩ | ⟨-, -, -, rfl⟩ | ⟨-, -, r4, w4, h4, hcase⟩
  · exact s3
  · exact s3
  · obtain ⟨-, -, e4, o4⟩ := of_chown h4
    have s4 : w4.fs q = w3.fs q :=
      step e4 (fun hx => by obtain ⟨e, he, hfs⟩ := o4 hx; exact ⟨e, _, he, hfs⟩)
    rcases hcase with ⟨e4, -, -, rfl⟩ | ⟨-, h5⟩
    · exact s4.trans s3
    · obtain ⟨-, -, e5, o5⟩ := of_utimes h5
      have s5 : w'.fs q = w4.fs q :=
        step e5 (fun hx => by obtain ⟨e, he, hfs⟩ := o5 hx; exact ⟨e, _, he, hfs⟩)
      exact (s5.trans s4).trans s3

theorem attr_missing {env : Env} {output : Path} {options : Options} {st : Stats}
    {w2 w' : World} {r : Except FsError Unit}
    (h : AttrStage env output options st w2 r w') (hm : w2.fs output = none) :
    w'.fs = w2.fs ∧ ∃ e, r = .error e := by
  obtain ⟨r3, w3, h3, hcase⟩ := h
  obtain ⟨-, -, e3, o3⟩ := of_chmod h3
  have hr3 : ∃ e, r3 = .error e := by
    cases r3 with
    | error e => exact ⟨e, rfl⟩
    | ok u =>
      obtain ⟨e, he, -⟩ := o3 rfl
      rw [hm] at he; cases he
  obtain ⟨e, rfl⟩ := hr3
  rcases hcase with ⟨e', -, hr, rfl⟩ | ⟨h3ok, -⟩ | ⟨h3ok, -⟩
  · exact ⟨e3 e rfl, e', hr⟩
  · cases h3ok
  · cases h3ok

theorem Appends.none (P : Call → Prop) (t : List Call) : Appends P t t :=
  ⟨[], by simp, by simp⟩

theorem Appends.one {P : Call → Prop} {t t' : List Call} {c : Call}
    (h : t' = t ++ [c]) (hc : P c) : Appends P t t' :=
  ⟨[c], h, by simpa using hc⟩

theorem Appends.more {P : Call → Prop} {a b c : List Call}
    (h1 : Appends P a b) (h2 : Appends P b c) : Appends P a c := by
  obtain ⟨x, rfl, hx⟩ := h1
  obtain ⟨y, rfl, hy⟩ := h2
  refine ⟨x ++ y, by simp, ?_⟩
  intro d hd
  rcases List.mem_append.mp hd with hd | hd
  · exact hx d hd
  · exact hy d hd

theorem attr_trace {env : Env} {output : Path} {options : Options} {st : Stats}
    {w2 w' : World} {r : Except FsError Unit}
    (h : AttrStage env output options st w2 r w') :
    Appends (fun c => c.touchesContent = false ∧ c.isStat = false) w2.trace w'.trace := by
  obtain ⟨r3, w3, h3, hcase⟩ := h
  have t3 := Appends.one (P := fun c => c.touchesContent = false ∧ c.isStat = false)
    (of_chmod h3).2.1 ⟨rfl, rfl⟩
  rcases hcase with ⟨e, -, -, rfl⟩ | ⟨-, -, -, rfl⟩ | ⟨-, -, r4, w4, h4, hcase⟩
  · exact t3
  · exact t3
  · have t4 := Appends.one (P := fun c => c.touchesContent = false ∧ c.isStat = false)
      (of_chown h4).2.1 ⟨rfl, rfl⟩
    rcases hcase with ⟨e4, -, -, rfl⟩ | ⟨-, h5⟩
    · exact t3.more t4
    · exact (t3.more t4).more (Appends.one (of_utimes h5).2.1 ⟨rfl, rfl⟩)

/-- C4 (update protection). When the update option is set and both metadata
reads are answered, the destination being strictly newer than the source makes
`copyFile` resolve at once: the filesystem is the one it started from, whatever
the transforms and the preserve flag, and the only calls issued are the two
`stat` calls (no directory is created, no byte written, no attribute set). -/
theorem update_skip_changes_nothing (env : Env) (source output : Path) (options : Options)
    (w : World) (se de : Entry)
    (hu : options.update = true)
    (hs : w.fs source = some se) (hd : w.fs output = some de)
    (hfs : env.fault (.stat source) = none) (hfd : env.fault (.stat output) = none)
    (hnewer : de.mtime > se.mtime) :
    copyFile env source output options w =
      (.ok (), { fs := w.fs, trace := w.trace ++ [.stat source, .stat output] }) := by
  have hnewer' : de.stats.mtime > se.stats.mtime := hnewer
  simp [copyFile, stat, hfs, hfd, hs, hd, hu, World.log, hnewer']

theorem stat_shift (env : Env) (p : Path) (t : List Call) (w : World) :
    stat env p (w.shift t) = Result.shift t (stat env p w) := by
  unfold stat
  cases env.fault (.stat p) with
  | some e => simp [Result.shift, World.shift, World.log]
  | none =>
    cases h : w.fs p <;> simp [Result.shift, World.shift, World.log, h]

theorem readFileSync_shift (env : Env) (p : Path) (t : List Call) (w : World) :
    readFileSync env p (w.shift t) = Result.shift t (readFileSync env p w) := by
  unfold readFileSync
  cases env.fault (.readFileSync p) with
  | some e => simp [Result.shift, World.shift, World.log]
  | none =>
    cases h : w.fs p with
    | none => simp [Result.shift, World.shift, World.log, h]
    | some e => cases h2 : e.data <;> simp [Result.shift, World.shift, World.log, h, h2]

theorem writeFile_shift (env : Env) (p : Path) (d : Bytes) (t : List Call) (w : World) :
    writeFile env p d (w.shift t) = Result.shift t (writeFile env p d w) := by
  unfold writeFile
  cases env.fault (.writeFile p d) with
  | some e => cases env.written p d <;> simp [Result.shift, World.shift, World.log]
  | none => simp [Result.shift, World.shift, World.log]

theorem ensureDir_shift (env : Env) (p : Path) (t : List Call) (w : World) :
    ensureDir env p (w.shift t) = Result.shift t (ensureDir env p w) := by
  unfold ensureDir
  cases env.fault (.ensureDir p) <;> simp [Result.shift, World.shift, World.log]

theorem chmod_shift (env : Env) (p : Path) (mode : Nat) (t : List Call) (w : World) :
    chmod env p mode (w.shift t) = Result.shift t (chmod env p mode w) := by
  unfold chmod
  cases env.fault (.chmod p mode) with
  | some e => simp [Result.shift, World.shift, World.log]
  | none => cases h : w.fs p <;> simp [Result.shift, World.shift, World.log, h]

theorem chown_shift (env : Env) (p : Path) (uid gid : Nat) (t : List Call) (w : World) :
    chown env p uid gid (w.shift t) = Result.shift t (chown env p uid gid w) := by
  unfold chown
  cases env.fault (.chown p uid gid) with
  | some e => simp [Result.shift, World.shift, World.log]
  | none => cases h : w.fs p <;> simp [Result.shift, World.shift, World.log, h]

theorem utimes_shift (env : Env) (p : Path) (atime mtime : Int) (t : List Call) (w : World) :
    utimes env p atime mtime (w.shift t) = Result.shift t (utimes env p atime mtime w) := by
  unfold utimes
  cases env.fault (.utimes p atime mtime) with
  | some e => simp [Result.shift, World.shift, World.log]
  | none => cases h : w.fs p <;> simp [Result.shift, World.shift, World.log, h]

theorem copyFileContent_shift (env : Env) (source output : Path) (ts : List (Bytes → Bytes))
    (t : List Call) (w : World) :
    copyFileContent env source output ts (w.shift t) =
      Result.shift t (copyFileContent env source output ts w) := by
  unfold copyFileContent
  by_cases hx : excluded env source = true
  · simp [hx, Result.shift]
  · simp only [hx, Bool.false_eq_true, if_false]
    rw [readFileSync_shift]
    rcases h1 : readFileSync env source w with ⟨_ | b, w1⟩
    · simp [Result.shift]
    · simp only [Result.shift]
      have hex : existsSync output (w1.shift t) =
          ((existsSync output w1).1, (existsSync output w1).2.shift t) := by
        simp [existsSync, World.shift, World.log]
      rw [hex]
      rcases h2 : existsSync output w1 with ⟨_ | _, w2⟩
      · simp only
        rw [writeFile_shift]; rfl
      · simp only
        rw [readFileSync_shift]
        rcases h3 : readFileSync env output w2 with ⟨_ | oc, w3⟩
        · simp [Result.shift]
        · simp only [Result.shift]
          split
          · rfl
          · rw [writeFile_shift]; rfl

theorem copyFileFrom_shift (env : Env) (source output : Path) (options : Options) (st : Stats)
    (t : List Call) (w : World) :
    copyFileFrom env source output options st (w.shift t) =
      Result.shift t (copyFileFrom env source output options st w) := by
  unfold copyFileFrom
  simp only
  have hcopied :
      (if st.isDirectory = true then ensureDir env output (w.shift t)
        else
          match ensureDir env (dirname output) (w.shift t) with
          | (.error e, w1) => (.error e, w1)
          | (.ok _, w1) => copyFileContent env source output options.transform w1) =
      Result.shift t
        (if st.isDirectory = true then ensureDir env output w
        else
          match ensureDir env (dirname output) w with
          | (.error e, w1) => (.error e, w1)
          | (.ok _, w1) => copyFileContent env source output options.transform w1) := by
    split
    · rw [ensureDir_shift]
    · rw [ensureDir_shift]
      rcases h1 : ensureDir env (dirname output) w with ⟨_ | u, w1⟩
      · simp [Result.shift]
      · simp only [Result.shift]
        rw [copyFileContent_shift]; rfl
  rw [hcopied]
  generalize (if st.isDirectory = true then ensureDir env output w
        else
          match ensureDir env (dirname output) w with
          | (.error e, w1) => (.error e, w1)
          | (.ok _, w1) => copyFileContent env source output options.transform w1) = copied
  rcases copied with ⟨_ | u, w2⟩
  · simp [Result.shift]
  · simp only [Result.shift]
    rw [chmod_shift]
    rcases h3 : chmod env output st.mode w2 with ⟨_ | u3, w3⟩
    · simp [Result.shift]
    · simp only [Result.shift]
      split
      · rw [chown_shift]
        rcases h4 : chown env output st.uid st.gid w3 with ⟨_ | u4, w4⟩
        · simp [Result.shift]
        · simp only [Result.shift]
          rw [utimes_shift]; rfl
      · rfl

theorem copyFileFrom_trace {env : Env} {source output : Path} {options : Options}
    {st : Stats} {w w' : World} {r : Except FsError Unit}
    (hr : copyFileFrom env source output options st w = (r, w')) :
    ∃ x cs, w'.trace = w.trace ++ Call.ensureDir x :: cs := by
  have h0 := copyFileFrom_shift env source output options st w.trace (World.init w.fs)
  have hw : (World.init w.fs).shift w.trace = w := by
    cases w; simp [World.init, World.shift]
  rw [hw, hr] at h0
  have htr : w'.trace = w.trace ++
      (copyFileFrom env source output options st (World.init w.fs)).2.trace :=
    congrArg (fun x => x.2.trace) h0
  rcases hr0 : copyFileFrom env source output options st (World.init w.fs) with ⟨r0, w0⟩
  rw [hr0] at htr
  simp only at htr
  suffices h : ∃ x cs, w0.trace = Call.ensureDir x :: cs by
    obtain ⟨x, cs, h⟩ := h
    exact ⟨x, cs, by rw [htr, h]⟩
  have grow : ∀ {a b : World} {x : Call} {cs : List Call}, a.trace = x :: cs →
      (∃ ds, b.trace = a.trace ++ ds) → ∃ cs, b.trace = x :: cs := by
    intro a b x cs ha hb
    obtain ⟨ds, hds⟩ := hb
    exact ⟨cs ++ ds, by rw [hds, ha]; rfl⟩
  obtain ⟨r2, w2, hcopy, hrest⟩ := copyFileFrom_stages hr0
  have h2 : ∃ x cs, w2.trace = Call.ensureDir x :: cs := by
    rcases hcopy with ⟨-, h1⟩ | ⟨-, r1, w1, h1, hcase⟩
    · exact ⟨output, [], by rw [(of_ensureDir h1).2.1]; rfl⟩
    · have t1 : w1.trace = [Call.ensureDir (dirname output)] := by
        rw [(of_ensureDir h1).2.1]; rfl
      rcases hcase with ⟨e, -, -, rfl⟩ | ⟨-, hc⟩
      · exact ⟨_, [], t1⟩
      · have h3 := copyFileContent_shift env source output options.transform w1.trace
          (World.init w1.fs)
        have hw1 : (World.init w1.fs).shift w1.trace = w1 := by
          cases w1; simp [World.init, World.shift]
        rw [hw1, hc] at h3
        exact ⟨dirname output, grow t1 ⟨_, congrArg (fun x => x.2.trace) h3⟩⟩
  obtain ⟨x, cs, h2⟩ := h2
  rcases hrest with ⟨e, -, -, rfl⟩ | ⟨-, hattr⟩
  · exact ⟨x, cs, h2⟩
  · obtain ⟨ds, hds, -⟩ := attr_trace hattr
    exact ⟨x, grow h2 ⟨ds, hds⟩⟩

theorem stat_fst_log (env : Env) (p : Path) (w : World) (c : Call) :
    (stat env p (w.log c)).1 = (stat env p w).1 := by
  unfold stat
  cases env.fault (.stat p) with
  | some e => rfl
  | none => cases h : w.fs p <;> simp [World.log, h]

theorem copyFile_run_self (env : Env) (source output : Path) (options : Options) (w : World) :
    Run env source output options w (copyFile env source output options w).1
      (copyFile env source output options w).2 :=
  copyFile_run rfl

theorem copyFileFrom_trace_self (env : Env) (source output : Path) (options : Options)
    (st : Stats) (w : World) :
    ∃ x cs, (copyFileFrom env source output options st w).2.trace =
      w.trace ++ Call.ensureDir x :: cs :=
  copyFileFrom_trace (r := (copyFileFrom env source output options st w).1) rfl

theorem copyFile_of_stat_error {env : Env} {source output : Path} {options : Options}
    {w : World} {e : FsError} (h : (stat env source w).1 = .error e) :
    copyFile env source output options w = (.error e, w.log (.stat source)) := by
  unfold copyFile
  rcases h1 : stat env source w with ⟨r1, w1⟩
  obtain ⟨rfl, -⟩ := of_stat h1
  rw [h1] at h
  simp only at h
  subst h
  rfl

theorem copyFile_of_stat_ok {env : Env} {source output : Path} {options : Options}
    {w : World} {st : Stats} (h : (stat env source w).1 = .ok st) :
    copyFile env source output options w =
      if options.update then
        match stat env output (w.log (.stat source)) with
        | (.ok dstStat, w2) =>
          if dstStat.mtime > st.mtime then (.ok (), w2)
          else copyFileFrom env source output options st w2
        | (.error dstStatError, w2) =>
          if dstStatError.code ≠ "ENOENT" then (.error dstStatError, w2)
          else copyFileFrom env source output options st w2
      else copyFileFrom env source output options st (w.log (.stat source)) := by
  rcases h1 : stat env source w with ⟨r1, w1⟩
  obtain ⟨rfl, -⟩ := of_stat h1
  rw [h1] at h
  simp only at h
  subst h
  conv_lhs => unfold copyFile
  rw [h1]

theorem stat_stage_of_failure {env : Env} {source output : Path} {options : Options}
    {fs : FS} {r : Except FsError Unit} {w' : World} {e : FsError}
    (hcf : copyFile env source output options (World.init fs) = (r, w'))
    (herr : r = .error e) (hall : ∀ c ∈ w'.trace, c.isStat = true) :
    ((stat env source (World.init fs)).1 = .error e ∨
      (options.update = true ∧ (∃ st, (stat env source (World.init fs)).1 = .ok st) ∧
        (stat env output (World.init fs)).1 = .error e ∧ e.code ≠ "ENOENT")) ∧
    w'.fs = fs := by
  have hfrom : ∀ {st : Stats} {w : World},
      copyFileFrom env source output options st w = (r, w') → False := by
    intro st w h
    obtain ⟨x, cs, h⟩ := copyFileFrom_trace h
    have := hall (Call.ensureDir x) (by rw [h]; simp)
    simp [Call.isStat] at this
  subst herr
  rcases copyFile_run hcf with ⟨e', h1, hr, hw⟩ | ⟨st, h1, ⟨-, h2⟩ | ⟨hu, hcase⟩⟩
  · cases hr
    exact ⟨Or.inl (by rw [h1]), by rw [hw]; rfl⟩
  · exact (hfrom h2).elim
  · rcases hcase with ⟨dst, -, -, hr, -⟩ | ⟨dst, -, -, h2⟩ | ⟨e', h2, hcode, hr, hw⟩ |
      ⟨e', -, -, h2⟩
    · cases hr
    · exact (hfrom h2).elim
    · cases hr
      refine ⟨Or.inr ⟨hu, ⟨st, by rw [h1]⟩, ?_, hcode⟩, by rw [hw]; rfl⟩
      rw [← stat_fst_log env output (World.init fs) (.stat source), h2]
    · exact (hfrom h2).elim

theorem failure_of_stat_stage {env : Env} {source output : Path} {options : Options}
    {fs : FS} {e : FsError}
    (h : (stat env source (World.init fs)).1 = .error e ∨
      (options.update = true ∧ (∃ st, (stat env source (World.init fs)).1 = .ok st) ∧
        (stat env output (World.init fs)).1 = .error e ∧ e.code ≠ "ENOENT")) :
    (copyFile env source output options (World.init fs)).1 = .error e ∧
      ∀ c ∈ (copyFile env source output options (World.init fs)).2.trace, c.isStat = true := by
  rcases h with h | ⟨hu, ⟨st, hst⟩, hout, hcode⟩
  · rw [copyFile_of_stat_error h]
    refine ⟨rfl, ?_⟩
    intro c hc
    simp only [World.log, World.init, List.nil_append, List.mem_singleton] at hc
    rw [hc]; rfl
  · rw [copyFile_of_stat_ok hst]
    rw [← stat_fst_log env output (World.init fs) (.stat source)] at hout
    rcases h2 : stat env output ((World.init fs).log (.stat source)) with ⟨r2, w2⟩
    obtain ⟨rfl, -⟩ := of_stat h2
    rw [h2] at hout
    simp only at hout
    subst hout
    simp only [hu, if_true, hcode, ne_eq, not_false_eq_true]
    refine ⟨trivial, ?_⟩
    intro c hc
    simp only [World.log, World.init, List.nil_append, List.mem_cons, List.mem_singleton,
      List.cons_append, List.not_mem_nil, or_false] at hc
    rcases hc with hc | hc <;> rw [hc] <;> rfl

theorem enoent_swallowed {env : Env} {source output : Path} {options : Options}
    {fs : FS} {e : FsError} (hu : options.update = true)
    (hout : (stat env output (World.init fs)).1 = .error e) (hcode : e.code = "ENOENT") :
    (copyFile env source output options (World.init fs)).1 =
        (copyFile env source output { options with update := false } (World.init fs)).1 ∧
      (copyFile env source output options (World.init fs)).2.fs =
        (copyFile env source output { options with update := false } (World.init fs)).2.fs ∧
      ((copyFile env source output options (World.init fs)).2.trace =
          (copyFile env source output { options with update := false }
            (World.init fs)).2.trace ∨
        ∃ cs,
          (copyFile env source output { options with update := false }
            (World.init fs)).2.trace = Call.stat source :: cs ∧
          (copyFile env source output options (World.init fs)).2.trace =
            Call.stat source :: Call.stat output :: cs) := by
  rcases hs : (stat env source (World.init fs)).1 with e1 | st
  · rw [copyFile_of_stat_error hs, copyFile_of_stat_error hs]
    exact ⟨rfl, rfl, Or.inl rfl⟩
  · rw [copyFile_of_stat_ok hs, copyFile_of_stat_ok hs]
    rw [← stat_fst_log env output (World.init fs) (.stat source)] at hout
    rcases h2 : stat env output ((World.init fs).log (.stat source)) with ⟨r2, w2⟩
    obtain ⟨rfl, -⟩ := of_stat h2
    rw [h2] at hout
    simp only at hout
    subst hout
    simp only [hu, if_true, hcode, ne_eq, not_true_eq_false, if_false, Bool.false_eq_true]
    have e1 : copyFileFrom env source output { options with update := false } st
        ((World.init fs).log (.stat source)) =
        Result.shift [Call.stat source]
          (copyFileFrom env source output options st (World.init fs)) := by
      rw [← copyFileFrom_shift]; rfl
    have e2 : copyFileFrom env source output options st
        (((World.init fs).log (.stat source)).log (.stat output)) =
        Result.shift [Call.stat source, Call.stat output]
          (copyFileFrom env source output options st (World.init fs)) := by
      rw [← copyFileFrom_shift]; rfl
    rw [e1, e2]
    exact ⟨rfl, rfl, Or.inr ⟨_, rfl, rfl⟩⟩

/-- C9 (metadata-read failures). `copyFile` rejects with `e` having issued only
metadata reads exactly when reading the source's metadata fails with `e`, or
the update option is set, the source's metadata is read, and reading the
destination's metadata fails with `e`, an error other than `ENOENT`; the
filesystem is then the one the run started from. With the update option set
and `ENOENT` for the destination, the outcome and the final filesystem are
those of the same call without the update option, the calls differing only by
the destination's `stat`. -/
theorem metadata_read_failures (env : Env) (source output : Path) (options : Options)
    (fs : FS) :
    (∀ e, FailsReadingMetadata (copyFile env source output options (World.init fs)) e ↔
      ((stat env source (World.init fs)).1 = .error e ∨
        (options.update = true ∧ (∃ st, (stat env source (World.init fs)).1 = .ok st) ∧
          (stat env output (World.init fs)).1 = .error e ∧ e.code ≠ "ENOENT"))) ∧
    (∀ e, FailsReadingMetadata (copyFile env source output options (World.init fs)) e →
      (copyFile env source output options (World.init fs)).2.fs = fs) ∧
    (∀ e, options.update = true → (stat env output (World.init fs)).1 = .error e →
      e.code = "ENOENT" →
      (copyFile env source output options (World.init fs)).1 =
          (copyFile env source output { options with update := false } (World.init fs)).1 ∧
        (copyFile env source output options (World.init fs)).2.fs =
          (copyFile env source output { options with update := false } (World.init fs)).2.fs ∧
        ((copyFile env source output options (World.init fs)).2.trace =
            (copyFile env source output { options with update := false }
              (World.init fs)).2.trace ∨
          ∃ cs,
            (copyFile env source output { options with update := false }
              (World.init fs)).2.trace = Call.stat source :: cs ∧
            (copyFile env source output options (World.init fs)).2.trace =
              Call.stat source :: Call.stat output :: cs)) := by
  refine ⟨fun e => ⟨fun h => ?_, fun h => failure_of_stat_stage h⟩, fun e h => ?_,
    fun e hu hout hcode => enoent_swallowed hu hout hcode⟩
  · exact (stat_stage_of_failure (r := (copyFile env source output options (World.init fs)).1)
      rfl h.1 h.2).1
  · exact (stat_stage_of_failure (r := (copyFile env source output options (World.init fs)).1)
      rfl h.1 h.2).2

theorem copyFileContent_excluded {env : Env} {source : Path} (output : Path)
    (ts : List (Bytes → Bytes)) (w : World) (hx : excluded env source = true) :
    copyFileContent env source output ts w = (.ok (), w) := by
  unfold copyFileContent
  simp [hx]

theorem not_mem_inits_dirname {output : Path} (h : output ≠ []) :
    output ∉ (dirname output).inits := by
  intro hmem
  have hle := (List.mem_inits _ _).mp hmem |>.length_le
  have hpos : 0 < output.length := List.length_pos.mpr h
  simp only [dirname, List.length_dropLast] at hle
  omega

theorem isDirectory_of_content {fs : FS} {p : Path} {c : Bytes} {e : Entry}
    (hc : fs.content p = some c) (he : fs p = some e) : e.stats.isDirectory = false := by
  have hd : e.data = some c := by simpa [FS.content, he] using hc
  simp [Entry.stats, hd]

/-- What a run does when the source is an excluded regular file and the
destination is missing: it rejects, the destination is still missing, nothing
was written, what existed is as it was but for the modification time of the
ancestors of the destination in which a directory was created, and what is new
is an ancestor directory of the destination. -/
theorem excluded_missing {env : Env} {source output : Path} {options : Options}
    {w w' : World} {r : Except FsError Unit} {c : Bytes}
    (hr : copyFile env source output options w = (r, w'))
    (hx : excluded env source = true) (hc : w.fs.content source = some c)
    (hne : output ≠ []) (hm : w.fs output = none) :
    (∃ e, r = .error e) ∧ w'.fs output = none ∧
      (∀ p e, w.fs p = some e →
        w'.fs p = some e ∨
          (p ∈ (dirname output).inits ∧ w'.fs p = some { e with mtime := env.now })) ∧
      (∀ p, w.fs p = none →
        w'.fs p = none ∨ (p ∈ (dirname output).inits ∧ w'.fs p = some env.newDir)) ∧
      (w.NoWrite → w'.NoWrite) := by
  have hfrom : ∀ (w0 : World) {st : Stats}, w0.fs = w.fs → (w.NoWrite → w0.NoWrite) →
      st.isDirectory = false →
      copyFileFrom env source output options st w0 = (r, w') →
      (∃ e, r = .error e) ∧ w'.fs output = none ∧
      (∀ p e, w.fs p = some e →
        w'.fs p = some e ∨
          (p ∈ (dirname output).inits ∧ w'.fs p = some { e with mtime := env.now })) ∧
      (∀ p, w.fs p = none →
        w'.fs p = none ∨ (p ∈ (dirname output).inits ∧ w'.fs p = some env.newDir)) ∧
      (w.NoWrite → w'.NoWrite) := by
    intro w0 st hfs hnw hdir h
    obtain ⟨r2, w2, hcopy, hrest⟩ := copyFileFrom_stages h
    rcases hcopy with ⟨hd, -⟩ | ⟨-, r1, w1, h1, hcase⟩
    · rw [hdir] at hd; cases hd
    · obtain ⟨p1, -, hold, hnew, -⟩ := of_ensureDir h1
      rw [hfs] at hold hnew
      have hout1 : w1.fs output = none := by
        rcases hnew output hm with h | ⟨h, -⟩
        · exact h
        · exact absurd h (not_mem_inits_dirname hne)
      have hnw1 : w.NoWrite → w1.NoWrite := fun hh => p1.2 (hnw hh)
      rcases hcase with ⟨e, -, hr2, rfl⟩ | ⟨-, hcc⟩
      · rcases hrest with ⟨e', -, hr', rfl⟩ | ⟨hok, -⟩
        · exact ⟨⟨e', hr'⟩, hout1, hold, hnew, hnw1⟩
        · rw [hr2] at hok; cases hok
      · rw [copyFileContent_excluded output options.transform w1 hx] at hcc
        cases hcc
        rcases hrest with ⟨e', hr2, -, -⟩ | ⟨-, hattr⟩
        · cases hr2
        · obtain ⟨hfs', herr⟩ := attr_missing hattr hout1
          refine ⟨herr, by rw [hfs']; exact hout1, ?_, ?_,
            fun hh => (attr_Pres hattr).2 (hnw1 hh)⟩
          · rw [hfs']; exact hold
          · rw [hfs']; exact hnew
  have hst : ∀ {st : Stats}, stat env source w = (.ok st, w.log (.stat source)) →
      st.isDirectory = false := by
    intro st h
    obtain ⟨-, h2⟩ := of_stat h
    obtain ⟨-, e, he, rfl⟩ := h2 st rfl
    exact isDirectory_of_content hc he
  have hsame : ∀ w0 : World, w0.fs = w.fs → (w.NoWrite → w0.NoWrite) →
      (∃ e, r = .error e) → w' = w0 →
      (∃ e, r = .error e) ∧ w'.fs output = none ∧
      (∀ p e, w.fs p = some e →
        w'.fs p = some e ∨
          (p ∈ (dirname output).inits ∧ w'.fs p = some { e with mtime := env.now })) ∧
      (∀ p, w.fs p = none →
        w'.fs p = none ∨ (p ∈ (dirname output).inits ∧ w'.fs p = some env.newDir)) ∧
      (w.NoWrite → w'.NoWrite) := by
    intro w0 hfs hnw herr hw
    subst hw
    rw [hfs]
    exact ⟨herr, hm, fun p e h => Or.inl h, fun p h => Or.inl h, hnw⟩
  rcases copyFile_run hr with ⟨e', -, hr', hw⟩ | ⟨st, h1, ⟨-, h2⟩ | ⟨hu, hcase⟩⟩
  · exact hsame (w.log (.stat source)) rfl (NoWrite_log rfl) ⟨e', hr'⟩ hw
  · exact hfrom (w.log (.stat source)) rfl (NoWrite_log rfl) (hst h1) h2
  · rcases hcase with ⟨dst, h2, -, -, -⟩ | ⟨dst, h2, -, -⟩ | ⟨e', -, -, hr', hw⟩ |
      ⟨e', -, -, h2⟩
    · obtain ⟨-, h3⟩ := of_stat h2
      obtain ⟨-, e, he, -⟩ := h3 dst rfl
      rw [show (w.log (Call.stat source)).fs = w.fs from rfl, hm] at he
      cases he
    · obtain ⟨-, h3⟩ := of_stat h2
      obtain ⟨-, e, he, -⟩ := h3 dst rfl
      rw [show (w.log (Call.stat source)).fs = w.fs from rfl, hm] at he
      cases he
    · exact hsame ((w.log (.stat source)).log (.stat output)) rfl
        (fun hh => NoWrite_log rfl (NoWrite_log rfl hh)) ⟨e', hr'⟩ hw
    · exact hfrom ((w.log (.stat source)).log (.stat output)) rfl
        (fun hh => NoWrite_log rfl (NoWrite_log rfl hh)) (hst h1) h2

/-- C5 (the skip conditions are successful outcomes), the case the code breaks:
with the exclusion pattern matching the source `/a.txt` and the destination
`/b.txt` missing, `copyFileContent` returns early, the `chmod` of line 82 then
runs on a path that does not exist, and `copyFile` rejects with `ENOENT`. -/
theorem excluded_source_missing_destination_rejects :
    (copyFile excludingEnv ["a.txt"] ["b.txt"] noOptions helloWorld).1 =
        .error (ENOENT "chmod") ∧
      (copyFile excludingEnv ["a.txt"] ["b.txt"] noOptions helloWorld).2.trace =
        [.stat ["a.txt"], .ensureDir [], .chmod ["b.txt"] 384] := by
  decide

theorem excluded_missing_self (env : Env) (source output : Path) (options : Options)
    (w : World) (c : Bytes)
    (hx : excluded env source = true) (hc : w.fs.content source = some c)
    (hne : output ≠ []) (hm : w.fs output = none) :
    (∃ e, (copyFile env source output options w).1 = .error e) ∧
      (copyFile env source output options w).2.fs output = none ∧
      (∀ p e, w.fs p = some e →
        (copyFile env source output options w).2.fs p = some e ∨
          (p ∈ (dirname output).inits ∧
            (copyFile env source output options w).2.fs p = some { e with mtime := env.now })) ∧
      (∀ p, w.fs p = none →
        (copyFile env source output options w).2.fs p = none ∨
          (p ∈ (dirname output).inits ∧
            (copyFile env source output options w).2.fs p = some env.newDir)) ∧
      (w.NoWrite → (copyFile env source output options w).2.NoWrite) :=
  excluded_missing (r := (copyFile env source output options w).1) rfl hx hc hne hm

/-- The exclusion skip never resolves on a missing destination: for every
host, every options object and every filesystem in which the excluded source
is a regular file and the destination is missing, `copyFile` rejects. -/
theorem excluded_source_missing_destination_never_resolves (env : Env)
    (source output : Path) (options : Options) (fs : FS) (c : Bytes)
    (hx : excluded env source = true) (hfile : fs.content source = some c)
    (hroot : (fs []).isSome = true) (hmissing : fs output = none) :
    ∃ e, (copyFile env source output options (World.init fs)).1 = .error e := by
  have hne : output ≠ [] := by
    rintro rfl
    rw [hmissing] at hroot
    cases hroot
  exact (excluded_missing_self env source output options (World.init fs) c
    hx hfile hne hmissing).1

theorem excluded_source_missing_destination_never_resolves_witness :
    ∃ e, (copyFile excludingEnv ["a.txt"] ["b.txt"] noOptions (World.init helloFs)).1 =
      .error e :=
  excluded_source_missing_destination_never_resolves excludingEnv ["a.txt"] ["b.txt"]
    noOptions helloFs hello (by decide) (by decide) (by decide) (by decide)

/-- C6 (exclusion filter). When the source is a regular file that the exclusion
pattern matches and the destination is missing, then whatever the outcome, the
transforms and the flags: the destination is still missing after `copyFile`;
every entry that existed is as it was, but for the modification time of an
ancestor of the destination (a directory was created in it); every entry that
is new is an ancestor of the destination and a directory; and no write was
issued. -/
theorem excluded_leaves_destination_absent (env : Env) (source output : Path)
    (options : Options) (fs : FS) (c : Bytes)
    (hx : excluded env source = true) (hfile : fs.content source = some c)
    (hroot : (fs []).isSome = true) (hmissing : fs output = none) :
    (copyFile env source output options (World.init fs)).2.fs output = none ∧
      (∀ p e, fs p = some e →
        (copyFile env source output options (World.init fs)).2.fs p = some e ∨
          (p ∈ (dirname output).inits ∧
            ∃ t, (copyFile env source output options (World.init fs)).2.fs p =
              some { e with mtime := t })) ∧
      (∀ p, fs p = none →
        (copyFile env source output options (World.init fs)).2.fs p = none ∨
          (p ∈ (dirname output).inits ∧
            (copyFile env source output options (World.init fs)).2.fs.isDir p = true)) ∧
      (copyFile env source output options (World.init fs)).2.NoWrite := by
  have hne : output ≠ [] := by
    rintro rfl
    rw [hmissing] at hroot
    cases hroot
  obtain ⟨-, h1, h2, h3, h4⟩ :=
    excluded_missing_self env source output options (World.init fs) c hx hfile hne hmissing
  refine ⟨h1, fun p e hp => ?_, fun p hp => ?_, h4 (by intro c hc; cases hc)⟩
  · rcases h2 p e hp with h | ⟨hmem, h⟩
    · exact Or.inl h
    · exact Or.inr ⟨hmem, env.now, h⟩
  · rcases h3 p hp with h | ⟨hmem, h⟩
    · exact Or.inl h
    · exact Or.inr ⟨hmem, by simp [FS.isDir, h, Env.newDir]⟩

theorem excluded_leaves_destination_absent_witness :
    (copyFile excludingEnv ["a.txt"] deepOutput
        { transform := [fun b => b ++ b], preserve := true, update := true }
        (World.init helloFs)).2.fs deepOutput = none ∧
      (copyFile excludingEnv ["a.txt"] deepOutput
        { transform := [fun b => b ++ b], preserve := true, update := true }
        (World.init helloFs)).2.fs.isDir ["out", "deep"] = true ∧
      (copyFile excludingEnv ["a.txt"] deepOutput
        { transform := [fun b => b ++ b], preserve := true, update := true }
        (World.init helloFs)).2.fs ["a.txt"] = some aTxt ∧
      ((copyFile excludingEnv ["a.txt"] deepOutput
        { transform := [fun b => b ++ b], preserve := true, update := true }
        (World.init helloFs)).2.fs []).map Entry.mtime ≠ (helloFs []).map Entry.mtime :=
  ⟨(excluded_leaves_destination_absent excludingEnv ["a.txt"] deepOutput
      { transform := [fun b => b ++ b], preserve := true, update := true } helloFs hello
      (by decide) (by decide) (by decide) (by decide)).1, by decide, by decide, by decide⟩

/-! ### Attributes -/

theorem withAttributes_data (env : Env) (output : Path) (options : Options) (st : Stats)
    (e : Entry) : (withAttributes env output options st e).data = e.data := by
  unfold withAttributes chmodded; split <;> rfl

theorem withAttributes_permissions (env : Env) (output : Path) (options : Options)
    (st : Stats) (e : Entry) :
    (withAttributes env output options st e).mode % 512 = st.mode % 512 := by
  unfold withAttributes chmodded
  split
  · simp only
    omega
  · simp only
    omega

theorem withAttributes_plain (env : Env) (output : Path) (options : Options)
    (st : Stats) (e : Entry) (hp : options.preserve = false)
    (hbits : env.specialBits (.chmod output st.mode) e = st.mode / 512) :
    (withAttributes env output options st e).mode = st.mode := by
  unfold withAttributes chmodded
  simp only [hp, Bool.false_eq_true, if_false, hbits]
  omega

theorem withAttributes_preserve (env : Env) (output : Path) (options : Options)
    (st : Stats) (e : Entry) (hp : options.preserve = true) :
    (withAttributes env output options st e).uid = st.uid ∧
      (withAttributes env output options st e).gid = st.gid ∧
      (withAttributes env output options st e).atime = st.atime ∧
      (withAttributes env output options st e).mtime = st.mtime := by
  unfold withAttributes; simp [hp]

/-- After a run of `copyFileFrom` that resolves, the destination is the entry
the copy stage left, with the attributes of lines 82 to 87. -/
theorem copyFileFrom_attributes {env : Env} {source output : Path} {options : Options}
    {st : Stats} {w w' : World}
    (h : copyFileFrom env source output options st w = (.ok (), w')) :
    ∃ e, w'.fs output = some (withAttributes env output options st e) := by
  obtain ⟨r2, w2, -, hrest⟩ := copyFileFrom_stages h
  rcases hrest with ⟨e, -, he, -⟩ | ⟨-, hattr⟩
  · cases he
  · obtain ⟨e, -, hfs⟩ := attr_ok hattr rfl
    exact ⟨e, by rw [hfs, FS.set_same]⟩

/-- A run that resolves without the update rule firing went through
`copyFileFrom` on the filesystem it started from. -/
theorem copyFile_ok_from {env : Env} {source output : Path} {options : Options}
    {w w' : World} {se : Entry}
    (hr : copyFile env source output options w = (.ok (), w'))
    (hs : w.fs source = some se) (hskip : ¬ UpdateSkip options w.fs source output) :
    ∃ w0, w0.fs = w.fs ∧
      (w0.trace = w.trace ++ [.stat source] ∨
        w0.trace = w.trace ++ [.stat source, .stat output]) ∧
      copyFileFrom env source output options se.stats w0 = (.ok (), w') := by
  have hst : ∀ {st : Stats}, stat env source w = (.ok st, w.log (.stat source)) →
      st = se.stats := by
    intro st h
    obtain ⟨-, h2⟩ := of_stat h
    obtain ⟨-, e, he, rfl⟩ := h2 st rfl
    rw [hs] at he
    cases he
    rfl
  rcases copyFile_run hr with ⟨e', -, hr', -⟩ | ⟨st, h1, ⟨-, h2⟩ | ⟨hu, hcase⟩⟩
  · cases hr'
  · rw [hst h1] at h2
    exact ⟨w.log (.stat source), rfl, Or.inl rfl, h2⟩
  · rcases hcase with ⟨dst, h2, hgt, -, -⟩ | ⟨dst, -, -, h2⟩ | ⟨e', -, -, hr', -⟩ |
      ⟨e', -, -, h2⟩
    · exfalso
      apply hskip
      obtain ⟨-, h3⟩ := of_stat h2
      obtain ⟨-, de, hde, rfl⟩ := h3 dst rfl
      rw [hst h1] at hgt
      exact ⟨hu, se, de, hs, hde, hgt⟩
    · rw [hst h1] at h2
      exact ⟨(w.log (.stat source)).log (.stat output), rfl,
        Or.inr (by simp [World.log]), h2⟩
    · cases hr'
    · rw [hst h1] at h2
      exact ⟨(w.log (.stat source)).log (.stat output), rfl,
        Or.inr (by simp [World.log]), h2⟩

/-- C7 (metadata preservation), amended: whenever `copyFile` resolves and the
update rule did not fire, the nine permission bits of the destination's mode
are the source's, whatever the preserve flag; without the preserve flag the
whole mode is the source's when the host's `chmod` leaves the set-user-ID,
set-group-ID and sticky bits as asked; with the preserve flag the owner, the
group, the access time and the modification time of the destination are those
the source had when its metadata was read at line 59. -/
theorem attributes_synced (env : Env) (source output : Path) (options : Options)
    (fs : FS) (se : Entry)
    (hs : fs source = some se) (hskip : ¬ UpdateSkip options fs source output)
    (hok : (copyFile env source output options (World.init fs)).1 = .ok ()) :
    ∃ de, (copyFile env source output options (World.init fs)).2.fs output = some de ∧
      de.mode % 512 = se.mode % 512 ∧
      (options.preserve = false →
        (∀ e, env.specialBits (.chmod output se.mode) e = se.mode / 512) →
        de.mode = se.mode) ∧
      (options.preserve = true →
        de.uid = se.uid ∧ de.gid = se.gid ∧ de.atime = se.atime ∧ de.mtime = se.mtime) := by
  rcases hcf : copyFile env source output options (World.init fs) with ⟨r, w'⟩
  rw [hcf] at hok
  simp only at hok
  subst hok
  obtain ⟨w0, hfs0, -, hfrom⟩ := copyFile_ok_from hcf hs hskip
  obtain ⟨e, hout⟩ := copyFileFrom_attributes hfrom
  exact ⟨_, hout, withAttributes_permissions _ _ _ _ _,
    fun hp hbits => withAttributes_plain _ _ _ _ _ hp (hbits e),
    fun hp => withAttributes_preserve _ _ _ _ _ hp⟩

/-- C7 as stated fails: with the update and preserve options set and the
destination newer than the source, `copyFile` resolves and the destination
keeps its own mode, owner and timestamps, different from the source's. -/
theorem update_skip_leaves_attributes :
    (copyFile plainEnv ["a.txt"] ["b.txt"]
        { transform := [], preserve := true, update := true } (World.init newerFs)).1 = .ok () ∧
      (copyFile plainEnv ["a.txt"] ["b.txt"]
        { transform := [], preserve := true, update := true } (World.init newerFs)).2.fs
          ["b.txt"] = some bTxt ∧
      (copyFile plainEnv ["a.txt"] ["b.txt"]
        { transform := [], preserve := true, update := true } (World.init newerFs)).2.fs
          ["a.txt"] = some aTxt ∧
      bTxt.mode ≠ aTxt.mode ∧ bTxt.uid ≠ aTxt.uid ∧ bTxt.mtime ≠ aTxt.mtime := by
  decide

theorem attributes_synced_witness :
    ∃ de, (copyFile plainEnv ["a.txt"] ["b.txt"]
        { transform := [], preserve := true, update := false } (World.init newerFs)).2.fs
          ["b.txt"] = some de ∧
      de.mode % 512 = 384 ∧ de.uid = 1000 ∧ de.mtime = 3000 := by
  obtain ⟨de, h1, h2, -, h3⟩ := attributes_synced plainEnv ["a.txt"] ["b.txt"]
    { transform := [], preserve := true, update := false } newerFs aTxt (by decide)
    (by rintro ⟨h, -⟩; cases h) (by decide)
  exact ⟨de, h1, h2, (h3 rfl).1, (h3 rfl).2.2.2⟩

/-- The `chown` of line 85 comes after the `chmod` of line 82: on a Linux host
a set-user-ID source copied with the preserve flag ends with the permission
bits of the source but without the set-user-ID bit (mode 0o755 for 0o4755);
without the preserve flag the whole mode is the source's. -/
theorem chown_after_chmod_clears_setuid :
    ((copyFile plainEnv ["tool"] ["b"]
        { transform := [], preserve := true, update := false } (World.init setuidFs)).2.fs
          ["b"]).map Entry.mode = some 493 ∧
      ((copyFile plainEnv ["tool"] ["b"]
        { transform := [], preserve := false, update := false } (World.init setuidFs)).2.fs
          ["b"]).map Entry.mode = some 2541 := by
  decide

theorem mkdirs_exclude (env : Env) (x : Option (Path → Bool)) (qs : List Path) (fs : FS) :
    mkdirs { env with excludeReg := x } qs fs = mkdirs env qs fs := by
  induction qs generalizing fs with
  | nil => rfl
  | cons q qs ih =>
    unfold mkdirs
    cases h : fs q with
    | none => simp only; exact ih _
    | some e =>
      cases h2 : e.data with
      | none => simp only [h2]; exact ih _
      | some b => simp only [h2]

theorem ensureDir_exclude (env : Env) (x : Option (Path → Bool)) (p : Path) (w : World) :
    ensureDir { env with excludeReg := x } p w = ensureDir env p w := by
  unfold ensureDir
  simp only [mkdirs_exclude]

/-- With a directory's metadata, `copyFileFrom` consults neither the exclusion
pattern nor the transforms. -/
theorem copyFileFrom_directory (env : Env) (x : Option (Path → Bool)) (source output : Path)
    (options : Options) (ts : List (Bytes → Bytes)) (st : Stats) (w : World)
    (hd : st.isDirectory = true) :
    copyFileFrom { env with excludeReg := x } source output { options with transform := ts }
      st w = copyFileFrom env source output options st w := by
  unfold copyFileFrom
  simp only [hd, if_true]
  rw [ensureDir_exclude]
  rfl

theorem copyFile_directory (env : Env) (x : Option (Path → Bool)) (source output : Path)
    (options : Options) (ts : List (Bytes → Bytes)) (w : World) (se : Entry)
    (hs : w.fs source = some se) (hd : se.data = none) :
    copyFile { env with excludeReg := x } source output { options with transform := ts } w =
      copyFile env source output options w := by
  have hstat : ∀ p v, stat { env with excludeReg := x } p v = stat env p v := fun _ _ => rfl
  rcases h1 : (stat env source w).1 with e | st
  · rw [copyFile_of_stat_error h1, copyFile_of_stat_error (by rw [hstat]; exact h1)]
  · rw [copyFile_of_stat_ok h1, copyFile_of_stat_ok (by rw [hstat]; exact h1)]
    obtain ⟨-, e, he, rfl⟩ := stat_ok h1
    rw [hs] at he
    cases he
    have hdir : se.stats.isDirectory = true := by simp [Entry.stats, hd]
    simp only [hstat, copyFileFrom_directory _ _ _ _ _ _ _ _ hdir]

/-- The directory branch of the copy stage: the destination and its ancestors
are directories afterwards, no file's bytes change, no content call is issued. -/
theorem copyFileFrom_directory_effect {env : Env} {source output : Path} {options : Options}
    {st : Stats} {w w' : World}
    (h : copyFileFrom env source output options st w = (.ok (), w'))
    (hd : st.isDirectory = true) :
    (∀ q ∈ output.inits, w'.fs.isDir q = true) ∧ (∀ p, w'.fs.content p = w.fs.content p) ∧
      Appends (fun c => c.touchesContent = false) w.trace w'.trace := by
  obtain ⟨r2, w2, hcopy, hrest⟩ := copyFileFrom_stages h
  rcases hcopy with ⟨-, h1⟩ | ⟨hf, -⟩
  · rcases hrest with ⟨e, -, he, -⟩ | ⟨hr2, hattr⟩
    · cases he
    · obtain ⟨p1, t1, -, -, hok⟩ := of_ensureDir h1
      have hdirs := hok hr2
      obtain ⟨e, he, hfs⟩ := attr_ok hattr rfl
      refine ⟨?_, fun p => ((attr_Pres hattr).1 p).trans (p1.1 p), ?_⟩
      · intro q hq
        have := hdirs q hq
        rw [hfs]
        by_cases hqo : q = output
        · subst hqo
          simp only [FS.isDir, he] at this
          simp [FS.isDir, FS.set_same, withAttributes_data, this]
        · simp only [FS.isDir, FS.set_other _ _ _ _ hqo]
          exact this
      · have a1 : Appends (fun c => c.touchesContent = false) w.trace w2.trace :=
          Appends.one t1 rfl
        obtain ⟨cs, hcs, hall⟩ := attr_trace hattr
        exact a1.more ⟨cs, hcs, fun c hc => (hall c hc).1⟩
  · rw [hd] at hf; cases hf

/-- C8 (directory source). When the source is a directory, the update rule
does not fire and `copyFile` resolves: the destination and every ancestor of it
are directories afterwards; no call that reads, tests or writes file content
was issued and every file's bytes are as before; and the run is the same
whatever the exclusion pattern and the transforms are. -/
theorem directory_source (env : Env) (source output : Path) (options : Options)
    (fs : FS) (se : Entry)
    (hs : fs source = some se) (hdir : se.data = none)
    (hskip : ¬ UpdateSkip options fs source output)
    (hok : (copyFile env source output options (World.init fs)).1 = .ok ()) :
    (∀ q ∈ output.inits,
        (copyFile env source output options (World.init fs)).2.fs.isDir q = true) ∧
      (∀ c ∈ (copyFile env source output options (World.init fs)).2.trace,
        c.touchesContent = false) ∧
      (∀ p, (copyFile env source output options (World.init fs)).2.fs.content p =
        fs.content p) ∧
      (∀ x ts, copyFile { env with excludeReg := x } source output
          { options with transform := ts } (World.init fs) =
        copyFile env source output options (World.init fs)) := by
  refine ⟨?_, ?_, ?_, fun x ts => copyFile_directory env x source output options ts _ se hs hdir⟩
  all_goals
    rcases hcf : copyFile env source output options (World.init fs) with ⟨r, w'⟩
    rw [hcf] at hok
    simp only at hok
    subst hok
    obtain ⟨w0, hfs0, ht0, hfrom⟩ := copyFile_ok_from hcf hs hskip
    have hd : se.stats.isDirectory = true := by simp [Entry.stats, hdir]
    obtain ⟨h1, h2, h3⟩ := copyFileFrom_directory_effect hfrom hd
  · exact h1
  · obtain ⟨cs, hcs, hall⟩ := h3
    intro c hc
    simp only [hcs, World.init] at hc ht0
    rcases ht0 with ht0 | ht0 <;> rw [ht0] at hc <;>
      simp only [List.nil_append, List.cons_append, List.mem_cons, List.mem_append,
        List.not_mem_nil, false_or] at hc
    · rcases hc with rfl | hc
      · rfl
      · exact hall c hc
    · rcases hc with rfl | rfl | hc
      · rfl
      · rfl
      · exact hall c hc
  · intro p
    rw [h2 p, hfs0]; rfl

theorem copyFileFrom_file {env : Env} {source output : Path} {options : Options}
    {st : Stats} {w w' : World} {r : Except FsError Unit} {c : Bytes}
    (h : copyFileFrom env source output options st w = (r, w'))
    (hc : w.fs.content source = some c) (hd : st.isDirectory = false) :
    ((∀ p, w'.fs.content p = w.fs.content p) ∧ (w.NoWrite → w'.NoWrite) ∧
      (r = .ok () → excluded env source = true ∨ w.fs.content output = some c)) ∨
    Rewritten env source output options c w r w' := by
  obtain ⟨r2, w2, hcopy, hrest⟩ := copyFileFrom_stages h
  rcases hcopy with ⟨hd', -⟩ | ⟨-, r1, w1, h1, hcase⟩
  · rw [hd] at hd'; cases hd'
  · obtain ⟨p1, -, -, -, -⟩ := of_ensureDir h1
    rcases hcase with ⟨e, -, hr2, rfl⟩ | ⟨-, hcc⟩
    · rcases hrest with ⟨e', -, hr', rfl⟩ | ⟨hok, -⟩
      · left
        refine ⟨p1.1, p1.2, fun hr => ?_⟩
        rw [hr'] at hr; cases hr
      · rw [hr2] at hok; cases hok
    · have hc1 : w1.fs.content source = some c := by rw [p1.1]; exact hc
      have hout1 : w1.fs.content output = w.fs.content output := p1.1 output
      have tail : Pres w2 w' ∧ (r = .ok () → r2 = .ok ()) := by
        rcases hrest with ⟨e', -, hr', rfl⟩ | ⟨hok, hattr⟩
        · refine ⟨Pres.same _, fun hr => ?_⟩
          rw [hr'] at hr; cases hr
        · exact ⟨attr_Pres hattr, fun _ => hok⟩
      obtain ⟨p2, hrr⟩ := tail
      rcases copyFileContent_cases hcc hc1 with ⟨pc, hok⟩ | ⟨hx, hne, hother, hok⟩
      · left
        refine ⟨fun p => ?_, fun hh => p2.2 (pc.2 (p1.2 hh)), fun hr => ?_⟩
        · rw [p2.1 p, pc.1 p, p1.1 p]
        · rcases hok (hrr hr) with h | h
          · exact Or.inl h
          · exact Or.inr (by rw [← hout1]; exact h)
      · right
        refine ⟨hx, by rw [← hout1]; exact hne, fun p hp => ?_, fun hr => ?_⟩
        · rw [p2.1 p, hother p hp, p1.1 p]
        · rw [p2.1 output]; exact hok (hrr hr)

/-- A run of `copyFile` on a regular-file source either leaves every file's
bytes untouched or rewrites the destination. -/
theorem copyFile_file {env : Env} {source output : Path} {options : Options}
    {w w' : World} {r : Except FsError Unit} {c : Bytes}
    (hr : copyFile env source output options w = (r, w'))
    (hc : w.fs.content source = some c) :
    Untouched env source output options c w r w' ∨
      Rewritten env source output options c w r w' := by
  have hst : ∀ {st : Stats}, stat env source w = (.ok st, w.log (.stat source)) →
      st.isDirectory = false ∧ ∃ se, w.fs source = some se ∧ st = se.stats := by
    intro st h
    obtain ⟨-, h2⟩ := of_stat h
    obtain ⟨-, e, he, rfl⟩ := h2 st rfl
    exact ⟨isDirectory_of_content hc he, e, he, rfl⟩
  have hfrom : ∀ (w0 : World) {st : Stats}, w0.fs = w.fs → (w.NoWrite → w0.NoWrite) →
      st.isDirectory = false → copyFileFrom env source output options st w0 = (r, w') →
      Untouched env source output options c w r w' ∨
        Rewritten env source output options c w r w' := by
    intro w0 st hfs hnw hd h
    rcases copyFileFrom_file h (by rw [hfs]; exact hc) hd with ⟨h1, h2, h3⟩ | h4
    · left
      rw [hfs] at h1 h3
      refine ⟨h1, fun hh => h2 (hnw hh), fun hr => ?_⟩
      rcases h3 hr with h | h
      · exact Or.inl h
      · exact Or.inr (Or.inl h)
    · right
      unfold Rewritten at h4 ⊢
      rw [hfs] at h4
      exact h4
  rcases copyFile_run hr with ⟨e', -, hr', hw⟩ | ⟨st, h1, ⟨-, h2⟩ | ⟨hu, hcase⟩⟩
  · left
    subst hw
    refine ⟨fun _ => rfl, NoWrite_log rfl, fun h => ?_⟩
    rw [hr'] at h; cases h
  · exact hfrom (w.log (.stat source)) rfl (NoWrite_log rfl) (hst h1).1 h2
  · rcases hcase with ⟨dst, h2, hgt, -, hw⟩ | ⟨dst, -, -, h2⟩ | ⟨e', -, -, hr', hw⟩ |
      ⟨e', -, -, h2⟩
    · left
      subst hw
      refine ⟨fun _ => rfl, fun hh => NoWrite_log rfl (NoWrite_log rfl hh), fun _ => ?_⟩
      right; right
      obtain ⟨-, se, hse, rfl⟩ := hst h1
      obtain ⟨-, h3⟩ := of_stat h2
      obtain ⟨-, de, hde, rfl⟩ := h3 dst rfl
      exact ⟨⟨hu, se, de, hse, hde, hgt⟩, rfl⟩
    · exact hfrom ((w.log (.stat source)).log (.stat output)) rfl
        (fun hh => NoWrite_log rfl (NoWrite_log rfl hh)) (hst h1).1 h2
    · left
      subst hw
      refine ⟨fun _ => rfl, fun hh => NoWrite_log rfl (NoWrite_log rfl hh), fun h => ?_⟩
      rw [hr'] at h; cases h
    · exact hfrom ((w.log (.stat source)).log (.stat output)) rfl
        (fun hh => NoWrite_log rfl (NoWrite_log rfl hh)) (hst h1).1 h2

theorem copyFile_file_self (env : Env) (source output : Path) (options : Options)
    (fs : FS) (c : Bytes) (hc : fs.content source = some c) :
    Untouched env source output options c (World.init fs)
        (copyFile env source output options (World.init fs)).1
        (copyFile env source output options (World.init fs)).2 ∨
      Rewritten env source output options c (World.init fs)
        (copyFile env source output options (World.init fs)).1
        (copyFile env source output options (World.init fs)).2 :=
  copyFile_file rfl hc

theorem init_NoWrite (fs : FS) : (World.init fs).NoWrite := by
  intro c hc; cases hc

/-- C1 (plain copy). With a regular-file source, an empty transform list, the
source not excluded and the update rule not firing, a `copyFile` that resolves
leaves the destination a regular file whose bytes are the source's, the write
having happened or having been skipped; the source's bytes are as before. -/
theorem plain_copy_content (env : Env) (source output : Path) (options : Options)
    (fs : FS) (c : Bytes)
    (hfile : fs.content source = some c) (hts : options.transform = [])
    (hx : excluded env source = false) (hskip : ¬ UpdateSkip options fs source output)
    (hok : (copyFile env source output options (World.init fs)).1 = .ok ()) :
    (copyFile env source output options (World.init fs)).2.fs.content output = some c ∧
      (copyFile env source output options (World.init fs)).2.fs.content source = some c := by
  have hid : applyTransforms options.transform c = c := by rw [hts]; rfl
  rcases copyFile_file_self env source output options fs c hfile with
    ⟨h1, -, h3⟩ | ⟨-, hne, h2, h4⟩
  · refine ⟨?_, by rw [h1 source]; exact hfile⟩
    rcases h3 hok with h | h | ⟨h, -⟩
    · rw [hx] at h; cases h
    · rw [h1 output]; exact h
    · exact absurd h hskip
  · refine ⟨by rw [h4 hok, hid], ?_⟩
    have hso : source ≠ output := by
      rintro rfl
      exact hne hfile
    rw [h2 source hso]; exact hfile

theorem plain_copy_content_witness :
    (copyFile plainEnv ["a.txt"] ["b.txt"] noOptions (World.init helloFs)).2.fs.content
      ["b.txt"] = some hello :=
  (plain_copy_content plainEnv ["a.txt"] ["b.txt"] noOptions helloFs hello
    (by decide) rfl (by decide) (by rintro ⟨h, -⟩; cases h) (by decide)).1

/-- C2 (transform pipeline). With a regular-file source and none of the skip
rules firing (the source is not excluded, the update rule does not fire, the
destination does not already hold the raw source bytes), a `copyFile` that
resolves leaves in the destination the left fold of the transforms, in list
order, over the source bytes: `g (f c)` for `[f, g]` and `c` for `[]`. -/
theorem transform_pipeline (env : Env) (source output : Path) (options : Options)
    (fs : FS) (c : Bytes)
    (hfile : fs.content source = some c)
    (hx : excluded env source = false) (hskip : ¬ UpdateSkip options fs source output)
    (hne : fs.content output ≠ some c)
    (hok : (copyFile env source output options (World.init fs)).1 = .ok ()) :
    (copyFile env source output options (World.init fs)).2.fs.content output =
      some (options.transform.foldl (fun content t => t content) c) := by
  rcases copyFile_file_self env source output options fs c hfile with
    ⟨-, -, h3⟩ | ⟨-, -, -, h4⟩
  · rcases h3 hok with h | h | ⟨h, -⟩
    · rw [hx] at h; cases h
    · exact absurd h hne
    · exact absurd h hskip
  · exact h4 hok

theorem transform_pipeline_witness :
    (copyFile plainEnv ["a.txt"] ["b.txt"]
        { transform := [exclaim, double], preserve := false, update := false }
        (World.init helloFs)).2.fs.content ["b.txt"] = some (double (exclaim hello)) ∧
      (copyFile plainEnv ["a.txt"] ["b.txt"]
        { transform := [double, exclaim], preserve := false, update := false }
        (World.init helloFs)).2.fs.content ["b.txt"] = some (exclaim (double hello)) ∧
      double (exclaim hello) ≠ exclaim (double hello) :=
  ⟨transform_pipeline plainEnv ["a.txt"] ["b.txt"]
      { transform := [exclaim, double], preserve := false, update := false } helloFs hello
      (by decide) (by decide) (by rintro ⟨h, -⟩; cases h) (by decide) (by decide),
    by decide, by decide⟩

/-- C10 (false "already equal" skip). The comparison is between the raw source
bytes and the destination: when the destination holds the source bytes,
`copyFile` issues no write and the destination still holds them, whatever the
transforms; so there is a run that resolves and leaves in the destination
something other than the transformed source bytes. -/
theorem equal_content_skips_transforms :
    (∀ (env : Env) (source output : Path) (options : Options) (fs : FS) (c : Bytes),
      fs.content source = some c → fs.content output = some c →
      (copyFile env source output options (World.init fs)).2.NoWrite ∧
        (copyFile env source output options (World.init fs)).2.fs.content output = some c) ∧
    (copyFile plainEnv ["a.txt"] ["b.txt"]
        { transform := [exclaim], preserve := false, update := false }
        (World.init sameFs)).1 = .ok () ∧
    sameFs.content ["a.txt"] = some hello ∧
    (copyFile plainEnv ["a.txt"] ["b.txt"]
        { transform := [exclaim], preserve := false, update := false }
        (World.init sameFs)).2.fs.content ["b.txt"] = some hello ∧
    [exclaim].foldl (fun content t => t content) hello ≠ hello := by
  refine ⟨?_, by decide, by decide, by decide, by decide⟩
  intro env source output options fs c hs ho
  rcases copyFile_file_self env source output options fs c hs with
    ⟨h1, h2, -⟩ | ⟨-, hne, -⟩
  · exact ⟨h2 (init_NoWrite fs), by rw [h1 output]; exact ho⟩
  · exact absurd ho hne

/-- C3 as stated fails: with a transform that changes the bytes, the second of
two identical calls does not take the content-equal skip; it writes the
destination again. -/
theorem second_call_writes_again :
    (copyFile plainEnv ["a.txt"] ["b.txt"]
        { transform := [exclaim], preserve := false, update := false }
        (World.init helloFs)).1 = .ok () ∧
      (copyFile plainEnv ["a.txt"] ["b.txt"]
        { transform := [exclaim], preserve := false, update := false }
        (World.init (copyFile plainEnv ["a.txt"] ["b.txt"]
          { transform := [exclaim], preserve := false, update := false }
          (World.init helloFs)).2.fs)).2.trace =
        [.stat ["a.txt"], .ensureDir [], .readFileSync ["a.txt"], .existsSync ["b.txt"],
          .readFileSync ["b.txt"], .writeFile ["b.txt"] (exclaim hello),
          .chmod ["b.txt"] 384] := by
  decide

/-- When the update rule fires and the host does not answer `ENOENT` for the
destination, the run leaves the filesystem as it is and issues no write. -/
theorem copyFile_of_updateSkip {env : Env} {source output : Path} {options : Options}
    {w w' : World} {r : Except FsError Unit}
    (hr : copyFile env source output options w = (r, w'))
    (hskip : UpdateSkip options w.fs source output)
    (hstat : ∀ e, env.fault (.stat output) = some e → e.code ≠ "ENOENT") :
    w'.fs = w.fs ∧ (w.NoWrite → w'.NoWrite) := by
  obtain ⟨hu, se, de, hse, hde, hgt⟩ := hskip
  rcases copyFile_run hr with ⟨e', -, -, hw⟩ | ⟨st, h1, ⟨hu', -⟩ | ⟨-, hcase⟩⟩
  · subst hw
    exact ⟨rfl, NoWrite_log rfl⟩
  · rw [hu] at hu'; cases hu'
  · obtain ⟨-, h1'⟩ := of_stat h1
    obtain ⟨-, se', hse', rfl⟩ := h1' st rfl
    rw [hse] at hse'
    cases hse'
    rcases hcase with ⟨dst, -, -, -, hw⟩ | ⟨dst, h2, hngt, -⟩ | ⟨e', -, -, -, hw⟩ |
      ⟨e', h2, hcode, -⟩
    · subst hw
      exact ⟨rfl, fun hh => NoWrite_log rfl (NoWrite_log rfl hh)⟩
    · exfalso
      obtain ⟨-, h2'⟩ := of_stat h2
      obtain ⟨-, de', hde', rfl⟩ := h2' dst rfl
      rw [show (w.log (Call.stat source)).fs = w.fs from rfl, hde] at hde'
      cases hde'
      exact hngt hgt
    · subst hw
      exact ⟨rfl, fun hh => NoWrite_log rfl (NoWrite_log rfl hh)⟩
    · exfalso
      rcases of_stat_error h2 with hf | hnone
      · exact hstat e' hf hcode
      · rw [show (w.log (Call.stat source)).fs = w.fs from rfl, hde] at hnone
        cases hnone

theorem copyFile_of_updateSkip_self (env : Env) (source output : Path) (options : Options)
    (w : World) (hskip : UpdateSkip options w.fs source output)
    (hstat : ∀ e, env.fault (.stat output) = some e → e.code ≠ "ENOENT") :
    (copyFile env source output options w).2.fs = w.fs ∧
      (w.NoWrite → (copyFile env source output options w).2.NoWrite) :=
  copyFile_of_updateSkip (r := (copyFile env source output options w).1) rfl hskip hstat

/-- C3 (idempotence), amended: when a first call on a regular-file source
resolves, take a second identical call on the filesystem the first one left,
under any host that does not report the destination as missing (it exists
after the first call). If the transforms map the source bytes to themselves,
as the empty list does, the second call issues no write and, whatever its
outcome, leaves the destination's bytes as the first call left them. With
other transforms it may write the destination again, and if it resolves the
destination's bytes are those the first call left. -/
theorem second_call_keeps_content (env env2 : Env) (source output : Path)
    (options : Options) (fs : FS) (c : Bytes)
    (hfile : fs.content source = some c)
    (hreg : env2.excludeReg = env.excludeReg)
    (hstat : ∀ e, env2.fault (.stat output) = some e → e.code ≠ "ENOENT")
    (hok : (copyFile env source output options (World.init fs)).1 = .ok ()) :
    ((copyFile env2 source output options
        (World.init (copyFile env source output options (World.init fs)).2.fs)).1 = .ok () →
      (copyFile env2 source output options
        (World.init (copyFile env source output options (World.init fs)).2.fs)).2.fs.content
          output =
        (copyFile env source output options (World.init fs)).2.fs.content output) ∧
    (options.transform.foldl (fun content t => t content) c = c →
      (copyFile env2 source output options
        (World.init (copyFile env source output options (World.init fs)).2.fs)).2.NoWrite ∧
      (copyFile env2 source output options
        (World.init (copyFile env source output options (World.init fs)).2.fs)).2.fs.content
          output =
        (copyFile env source output options (World.init fs)).2.fs.content output) := by
  have first := copyFile_file_self env source output options fs c hfile
  rcases hcf : copyFile env source output options (World.init fs) with ⟨r, w1⟩
  rw [hcf] at first hok
  simp only at first hok ⊢
  subst hok
  have hexc : excluded env2 source = excluded env source := by
    unfold excluded; rw [hreg]
  have hsrc : w1.fs.content source = some c := by
    rcases first with ⟨h1, -, -⟩ | ⟨-, hne, h2, -⟩
    · rw [h1 source]; exact hfile
    · have hso : source ≠ output := by
        rintro rfl
        exact hne hfile
      rw [h2 source hso]; exact hfile
  have second := copyFile_file_self env2 source output options w1.fs c hsrc
  have key :
      ((copyFile env2 source output options (World.init w1.fs)).2.NoWrite ∧
        (copyFile env2 source output options (World.init w1.fs)).2.fs.content output =
          w1.fs.content output) ∨
      (w1.fs.content output ≠ some c ∧
        w1.fs.content output = some (applyTransforms options.transform c) ∧
        ((copyFile env2 source output options (World.init w1.fs)).1 = .ok () →
          (copyFile env2 source output options (World.init w1.fs)).2.fs.content output =
            some (applyTransforms options.transform c))) := by
    rcases second with ⟨s1, s2, -⟩ | ⟨sx, sne, -, s4⟩
    · exact Or.inl ⟨s2 (init_NoWrite _), s1 output⟩
    · have sne' : w1.fs.content output ≠ some c := sne
      rcases first with ⟨h1, -, h3⟩ | ⟨-, -, -, h5⟩
      · rcases h3 rfl with h | h | ⟨hus, hfs⟩
        · rw [hexc, h] at sx; cases sx
        · exfalso
          apply sne'
          rw [h1 output]; exact h
        · left
          have hus' : UpdateSkip options (World.init w1.fs).fs source output := by
            show UpdateSkip options w1.fs source output
            rw [hfs]; exact hus
          obtain ⟨g1, g2⟩ := copyFile_of_updateSkip_self env2 source output options
            (World.init w1.fs) hus' hstat
          exact ⟨g2 (init_NoWrite _), by rw [g1]; rfl⟩
      · exact Or.inr ⟨sne', h5 rfl, s4⟩
  rcases key with ⟨k1, k2⟩ | ⟨k1, k2, k3⟩
  · exact ⟨fun _ => k2, fun _ => ⟨k1, k2⟩⟩
  · refine ⟨fun hok2 => by rw [k3 hok2, k2], fun hid => ?_⟩
    exfalso
    apply k1
    rw [k2]
    exact congrArg some hid

theorem second_call_keeps_content_witness :
    (copyFile laterEnv ["a.txt"] ["b.txt"]
        { transform := [exclaim], preserve := false, update := false }
        (World.init (copyFile plainEnv ["a.txt"] ["b.txt"]
          { transform := [exclaim], preserve := false, update := false }
          (World.init helloFs)).2.fs)).2.fs.content ["b.txt"] =
      (copyFile plainEnv ["a.txt"] ["b.txt"]
        { transform := [exclaim], preserve := false, update := false }
        (World.init helloFs)).2.fs.content ["b.txt"] ∧
    (copyFile laterEnv ["a.txt"] ["b.txt"] noOptions
        (World.init (copyFile plainEnv ["a.txt"] ["b.txt"] noOptions
          (World.init helloFs)).2.fs)).2.NoWrite :=
  ⟨(second_call_keeps_content plainEnv laterEnv ["a.txt"] ["b.txt"]
      { transform := [exclaim], preserve := false, update := false } helloFs hello
      (by decide) rfl (by intro e h; cases h) (by decide)).1 (by decide),
    ((second_call_keeps_content plainEnv laterEnv ["a.txt"] ["b.txt"] noOptions helloFs hello
      (by decide) rfl (by intro e h; cases h) (by decide)).2 rfl).1⟩

theorem update_skip_changes_nothing_witness :
    copyFile plainEnv ["a.txt"] ["b.txt"]
        { transform := [exclaim], preserve := true, update := true } (World.init newerFs) =
      (.ok (), { fs := newerFs, trace := [.stat ["a.txt"], .stat ["b.txt"]] }) :=
  update_skip_changes_nothing plainEnv ["a.txt"] ["b.txt"]
    { transform := [exclaim], preserve := true, update := true } (World.init newerFs)
    aTxt bTxt rfl (by decide) (by decide) rfl rfl (by decide)

theorem directory_source_witness :
    (copyFile excludeAllEnv ["src"] ["out", "deep"]
        { transform := [exclaim], preserve := true, update := true }
        (World.init dirFs)).2.fs.isDir ["out", "deep"] = true ∧
      (copyFile excludeAllEnv ["src"] ["out", "deep"]
        { transform := [exclaim], preserve := true, update := true }
        (World.init dirFs)).2.fs.isDir ["out"] = true ∧
      (copyFile excludeAllEnv ["src"] ["out", "deep"]
        { transform := [exclaim], preserve := true, update := true }
        (World.init dirFs)).2.trace =
        [.stat ["src"], .stat ["out", "deep"], .ensureDir ["out", "deep"],
          .chmod ["out", "deep"] 448, .chown ["out", "deep"] 1000 1000,
          .utimes ["out", "deep"] 2000 3000] :=
  ⟨(directory_source excludeAllEnv ["src"] ["out", "deep"]
      { transform := [exclaim], preserve := true, update := true } dirFs srcDir
      (by decide) rfl (by
        rintro ⟨-, se, de, -, h, -⟩
        have hnone : dirFs ["out", "deep"] = none := by decide
        rw [hnone] at h
        cases h) (by decide)).1
      ["out", "deep"] (by decide),
    (directory_source excludeAllEnv ["src"] ["out", "deep"]
      { transform := [exclaim], preserve := true, update := true } dirFs srcDir
      (by decide) rfl (by
        rintro ⟨-, se, de, -, h, -⟩
        have hnone : dirFs ["out", "deep"] = none := by decide
        rw [hnone] at h
        cases h) (by decide)).1
      ["out"] (by decide),
    by decide⟩

end Cpx
